import Mathlib

/-!
Shallow embedding of the StegoTester correlation engine and metric worker
(`src/utils.py` and `src/worker.py`).

Pure algorithmic code is translated directly.  External numeric libraries
(PIL image decoding, `imagehash.phash`, `np.fft.rfft`, the scipy cosine
value on aligned vectors, joblib classifier models, `soundfile` reads) are
modelled as oracle functions supplied as parameters, with only the
structural facts the source relies on (e.g. the length of an rfft output)
stated as hypotheses where a theorem needs them.  Machine integers that can
overflow (numpy `int16` arithmetic in `calculate_audio_stego_prob`) are
modelled as `ℤ` with explicit reduction mod 2^16.
-/

deriving instance DecidableEq for Except

/- ===================== Modality and extension tables (utils.py 13-16) ===================== -/

inductive Modality where
  | image | audio | text
deriving DecidableEq, Repr

def IMG_EXT : List String := [".png", ".jpg", ".jpeg", ".bmp", ".tiff", ".gif", ".webp"]

def AUD_EXT : List String := [".wav", ".flac", ".mp3"]

def TXT_EXT : List String := [".txt", ".bin", ".log"]

def STOP_WORDS : List String :=
  ["orig", "original", "stego", "extract", "audio", "image", "text", "file",
   "output", "test", "tonal", "speech", "melodik", "noise"]

/- ===================== Path and token helpers (utils.py 166-170) ===================== -/

/-- Final path component, as `pathlib.Path(...).name` on a posix path. -/
def lastComponent (s : List Char) : List Char :=
  (s.reverse.takeWhile (fun c => c ≠ '/')).reverse

/-- Split a file name into `(stem, suffix)` following `pathlib`: the suffix is
the substring from the last dot, provided that dot is neither the first nor the
last character of the name; otherwise the suffix is empty. -/
def pathSplitExt (name : List Char) : List Char × List Char :=
  let k := (name.reverse.takeWhile (fun c => c ≠ '.')).length
  if k < name.length then
    let i := name.length - k - 1
    if 0 < i ∧ 0 < k then (name.take i, name.drop i) else (name, [])
  else (name, [])

/-- Lower-cased suffix of a path, as `Path(f).suffix.lower()`. -/
def pathSuffixLower (path : String) : String :=
  String.mk ((pathSplitExt (lastComponent path.data)).2.map Char.toLower)

/-- Modality from the extension, as in `utils.group_files_smart`:
image if the suffix is in `IMG_EXT`, else audio if in `AUD_EXT`, else text. -/
def modalityOf (path : String) : Modality :=
  if pathSuffixLower path ∈ IMG_EXT then .image
  else if pathSuffixLower path ∈ AUD_EXT then .audio
  else .text

/-- Delimiters of the token split regex in `get_tokens`: the class
`[_\-\s\.]+` where `\s` covers space, tab, newline, carriage return,
vertical tab and form feed. -/
def tokenDelims : List Char := ['_', '-', '.', ' ', '\t', '\n', '\r', '\x0b', '\x0c']

/-- Maximal runs of non-delimiter characters.  `re.split` on a `+`-class also
emits empty strings when the input starts or ends with a delimiter; those are
removed below by the `len(t) > 2` filter either way, so they are not produced
here. -/
def splitRunsGo : List Char → List Char → List (List Char)
  | [], acc => if acc = [] then [] else [acc.reverse]
  | c :: rest, acc =>
    if c ∈ tokenDelims then
      if acc = [] then splitRunsGo rest [] else acc.reverse :: splitRunsGo rest []
    else splitRunsGo rest (c :: acc)

def splitRuns (s : List Char) : List (List Char) := splitRunsGo s []

/-- Python `str.isdigit`: non-empty and all digits. -/
def isDigitString (t : String) : Bool := !t.data.isEmpty && t.data.all Char.isDigit

/-- Token set of a file name (`utils.get_tokens`): lower-cased stem, split on
delimiters, dropping stop words, pure digit strings and tokens of length at
most 2.  The Python set is modelled as a deduplicated list; it is only ever
used through intersection sizes. -/
def get_tokens (filename : String) : List String :=
  let stem := (pathSplitExt (lastComponent filename.data)).1.map Char.toLower
  let toks := (splitRuns stem).map (fun cs => String.mk cs)
  (toks.filter (fun t => decide (t ∉ STOP_WORDS ∧ isDigitString t = false ∧ 2 < t.length))).dedup

/-- Size of the intersection of two token sets (`len(a & b)` on Python sets);
both lists are deduplicated by construction. -/
def tokenOverlap (a b : List String) : ℕ :=
  (a.filter (fun t => decide (t ∈ b))).length

/- ===================== int16 machine arithmetic ===================== -/

/-- Reduction of an integer into the `int16` range `[-32768, 32767]`,
as numpy wrap-around arithmetic does. -/
def wrap16 (z : ℤ) : ℤ := (z + 32768) % 65536 - 32768

/-- numpy `np.abs` on an `int16` value: the two's-complement absolute value,
which overflows back to `-32768` at `-32768`. -/
def abs16 (z : ℤ) : ℤ := wrap16 z.natAbs

/-- Rational floor, kernel-computable. -/
def floorQ (q : ℚ) : ℤ := q.num.fdiv q.den

/-- Python `round(x, 4)` modelled as floor of `x·10⁴ + 1/2` divided by `10⁴`.
Python rounds exact ties to even; the two differ only on exact ties at the
5th decimal, which none of the verified statements depend on. -/
def round4 (q : ℚ) : ℚ := (floorQ (q * 10000 + 1/2) : ℚ) / 10000

/-- Python `min` on two rationals, kernel-computable. -/
def minQ (a b : ℚ) : ℚ := if a ≤ b then a else b

/-- Python `max` on two rationals, kernel-computable. -/
def maxQ (a b : ℚ) : ℚ := if a ≤ b then b else a

/-- Binary maximum on integers, kernel-computable. -/
def maxI (a b : ℤ) : ℤ := if a ≤ b then b else a

/- ===================== Audio statistical fallback (utils.py 85-139) ===================== -/

/-- Result of `soundfile.read` without `always_2d`: a mono file gives a 1-D
sample array, a multichannel file a 2-D frames-by-channels array. -/
inductive SfData where
  | one : List ℤ → SfData
  | two : List (List ℤ) → SfData
deriving DecidableEq, Repr

/-- Python `len(y)`: number of samples of a 1-D array, number of frames of a
2-D array. -/
def sfLen : SfData → ℕ
  | .one xs => xs.length
  | .two fr => fr.length

/-- Python `y[:n]`. -/
def sfTake (n : ℕ) : SfData → SfData
  | .one xs => .one (xs.take n)
  | .two fr => .two (fr.take n)

/-- Reading with `dtype='int16'` delivers values in the int16 range. -/
def sfWrap : SfData → SfData
  | .one xs => .one (xs.map wrap16)
  | .two fr => .two (fr.map (fun r => r.map wrap16))

/-- The `if y.ndim > 1: y = y.flatten()` step: a 2-D array is flattened in row
major order, interleaving all channels; a 1-D array is left alone. -/
def sfFlatten : SfData → List ℤ
  | .one xs => xs
  | .two fr => fr.flatten

/-- Shared front half of `calculate_audio_stego_prob`: int16 read, length
equalisation by truncation, flattening. -/
def flatTrunc (a b : SfData) : List ℤ × List ℤ :=
  let a' := sfWrap a
  let b' := sfWrap b
  let m := min (sfLen a') (sfLen b')
  (sfFlatten (sfTake m a'), sfFlatten (sfTake m b'))

/-- Elementwise combination of two 1-D numpy arrays under broadcasting:
equal lengths combine pointwise, a length-1 array broadcasts against the
other, anything else raises (`none`). -/
def broadcastWith (d : ℤ → ℤ → ℤ) (u v : List ℤ) : Option (List ℤ) :=
  if u.length = v.length then some ((u.zip v).map fun p => d p.1 p.2)
  else if u.length = 1 then some (v.map fun y => d (u.headD 0) y)
  else if v.length = 1 then some (u.map fun x => d x (v.headD 0))
  else none

/-- Scoring tail shared by the audio difference analyses.  `maxPos` stands for
the `np.max(diff) > 0` test: it receives `diff.foldl max 0`, whose positivity
agrees with positivity of the true maximum on the (non-empty) lists reaching
this point. -/
def audioScoreTail (diff : List ℤ) : ℚ :=
  let nzc : ℕ := diff.countP (fun d0 => d0 != 0)
  let total : ℕ := diff.length
  let rate : ℚ := (nzc : ℚ) / (total : ℚ)
  let prob : ℚ := minQ (rate * 20) 1
  let maxDiff : ℤ := diff.foldl maxI 0
  let prob := if 0 < maxDiff ∧ prob < 1/10 then maxQ prob (1/10) else prob
  round4 prob

/-- Translation of `utils.calculate_audio_stego_prob`.  The difference array is
`np.abs(y_ref - y_cmp)` computed in numpy `int16` arithmetic: the subtraction
wraps mod 2^16 and `np.abs` overflows at `-32768`.  A shape error from the
subtraction is caught by the surrounding `except` and yields `0.0`. -/
def calculate_audio_stego_prob (a b : SfData) : ℚ :=
  let p := flatTrunc a b
  match broadcastWith (fun x y => abs16 (wrap16 (x - y))) p.1 p.2 with
  | none => 0
  | some diff =>
    if diff.sum = 0 then 0
    else audioScoreTail diff

/-- Modelled from the amended claim's words: read both as 16-bit PCM, equalize
lengths by truncation, flatten multichannel input by interleaving all
channels, then score the exact absolute sample difference: `0.0` if it sums
to zero, else `min(change_rate·20, 1)` floored to `0.1` when the maximum
absolute difference is nonzero, rounded to 4 decimals. -/
def audio_stego_prob_spec (a b : SfData) : ℚ :=
  let p := flatTrunc a b
  match broadcastWith (fun x y => |x - y|) p.1 p.2 with
  | none => 0
  | some diff =>
    if diff.sum = 0 then 0
    else
      let rate : ℚ := ((diff.countP (fun d0 => d0 != 0) : ℕ) : ℚ) / ((diff.length : ℕ) : ℚ)
      let prob : ℚ := minQ (rate * 20) 1
      let prob := if diff.foldl maxI 0 ≠ 0 ∧ prob < 1/10 then 1/10 else prob
      round4 prob

/-- The claim's reading of the flattening step: multichannel input is reduced
to mono by selecting one channel (the first).  Written only to be refuted:
the source keeps every channel. -/
def channelSelect : SfData → SfData
  | .one xs => .one xs
  | .two fr => .one (fr.map (fun r => r.headD 0))

/-- Audio score as the claim describes it, with channel selection in place of
interleaving flattening; otherwise identical to `audio_stego_prob_spec`. -/
def audio_stego_prob_claimed (a b : SfData) : ℚ :=
  let a' := sfWrap a
  let b' := sfWrap b
  let m := min (sfLen a') (sfLen b')
  let u := sfFlatten (channelSelect (sfTake m a'))
  let v := sfFlatten (channelSelect (sfTake m b'))
  match broadcastWith (fun x y => |x - y|) u v with
  | none => 0
  | some diff =>
    if diff.sum = 0 then 0
    else
      let rate : ℚ := ((diff.countP (fun d0 => d0 != 0) : ℕ) : ℚ) / ((diff.length : ℕ) : ℚ)
      let prob : ℚ := minQ (rate * 20) 1
      let prob := if diff.foldl maxI 0 ≠ 0 ∧ prob < 1/10 then 1/10 else prob
      round4 prob

/- ===================== Image statistical fallback (utils.py 33-83) ===================== -/

/-- A decoded RGB image: dimensions as reported by `PIL.Image.size` (width,
height) and the flattened pixel list of 8-bit RGB triples. -/
structure Img where
  width : ℕ
  height : ℕ
  px : List (ℕ × ℕ × ℕ)
deriving DecidableEq, Repr

/-- Absolute difference of two channel values (`np.abs` of the `int16`
subtraction of 8-bit values, which cannot overflow). -/
def natDist (a b : ℕ) : ℕ := ((a : ℤ) - (b : ℤ)).natAbs

/-- Flattened absolute per-channel residual `np.abs(arr_ref - arr_cmp)`. -/
def imageResidual (a b : Img) : List ℕ :=
  (a.px.zip b.px).flatMap fun p =>
    [natDist p.1.1 p.2.1, natDist p.1.2.1 p.2.2.1, natDist p.1.2.2 p.2.2.2]

/-- Histogram entropy exactly as the source computes it: `np.bincount` over
the nonzero residual values (indices `0 .. max`), probabilities against the
list length, and `-Σ p·log₂ p` over the positive-probability entries. -/
noncomputable def histEntropy (nz : List ℕ) : ℝ :=
  -(∑ v ∈ Finset.range (nz.foldr Nat.max 0 + 1),
      if 0 < nz.count v then
        ((nz.count v : ℝ) / nz.length) * Real.logb 2 ((nz.count v : ℝ) / nz.length)
      else 0)

/-- The logistic squash `1 / (1 + e^{-(entropy - 0.5)·2})` from the source. -/
noncomputable def logisticScore (e : ℝ) : ℝ := 1 / (1 + Real.exp (-(e - 0.5) * 2))

/-- Python `round(x, 4)` over the reals; Python rounds exact ties to even,
which no verified statement depends on. -/
noncomputable def round4R (x : ℝ) : ℝ := (round (x * 10000) : ℤ) / 10000

/-- Translation of `utils.calculate_image_stego_prob` on two decoded images.
The `try/except` around file decoding is outside the model; the
`len(non_zero_diff) == 0` test is the (dead) branch of the source. -/
noncomputable def calculate_image_stego_prob (a b : Img) : ℝ :=
  if (a.width, a.height) ≠ (b.width, b.height) then 1
  else
    let diffs := imageResidual a b
    if diffs.sum = 0 then 0
    else
      let nz := diffs.filter (fun d => decide (0 < d))
      if nz.length = 0 then 0
      else round4R (logisticScore (histEntropy nz))

/-- Entropy of the histogram of nonzero residual values, stated as the spec
words it: a sum over the distinct values present. -/
noncomputable def specHistEntropy (nz : List ℕ) : ℝ :=
  -(∑ v ∈ nz.toFinset,
      ((nz.count v : ℝ) / nz.length) * Real.logb 2 ((nz.count v : ℝ) / nz.length))

/-- Image score as the spec states it: 1.0 when width or height differ, 0.0
when the residual sums to zero, otherwise the logistic squash of the Shannon
entropy of the nonzero residual histogram, rounded to 4 decimals. -/
noncomputable def image_stego_prob_spec (a b : Img) : ℝ :=
  if a.width ≠ b.width ∨ a.height ≠ b.height then 1
  else
    let diffs := imageResidual a b
    if diffs.sum = 0 then 0
    else round4R (logisticScore (specHistEntropy (diffs.filter (fun d => decide (d ≠ 0)))))

/- ===================== Audio detection cascade (worker.py 92, 165-183) ===================== -/

/-- The gatekeeper constant `AUDIO_LSB_THRESHOLD = 0.455` of worker.py. -/
def AUDIO_LSB_THRESHOLD : ℚ := 0.455

/-- Number of adjacent sample pairs whose least-significant bits differ. -/
def countLsbTransitions : List ℤ → ℕ
  | [] => 0
  | [_] => 0
  | a :: b :: rest => (if a % 2 ≠ b % 2 then 1 else 0) + countLsbTransitions (b :: rest)

/-- Modelled from the spec: `calculate_gatekeeper_score` is imported by
worker.py from utils but defined nowhere in the source; per the spec it is
the least-significant-bit transition rate of the candidate — the fraction of
adjacent-sample LSB values that differ, over `len(samples) - 1`. -/
def calculate_gatekeeper_score (samples : List ℤ) : ℚ :=
  (countLsbTransitions samples : ℚ) / ((samples.length - 1 : ℕ) : ℚ)

/- ===================== Metric worker (worker.py 57-243) ===================== -/

/-- External collaborators of `MetricWorker.run`, abstracted: the bodies of
the registry metric functions (a `none` result models a raised exception),
the missing `calculate_gatekeeper_score` / feature extractors (`none` models
a raise or a `None` feature vector), and the optional joblib classifier
models (`none` model object = not loaded; inner `none` = `predict_proba`
raised). -/
structure WorkerOracle where
  metricFn : String → String → String → Option ℚ
  gatekeeper : String → Option ℚ
  audFeatures : String → Option (List ℚ)
  audModel : Option (List ℚ → Option ℚ)
  imgFeatures : String → Option (List ℚ)
  imgModel : Option (List ℚ → Option ℚ)

/-- The static metric registry keys of worker.py lines 57-89. -/
def REGISTRY_KEYS : List String :=
  ["audio_mse", "audio_psnr", "audio_snr", "audio_mae", "audio_lsd",
   "audio_perceptual_score", "audio_bitwise_ber", "audio_byte_accuracy", "audio_exact_match",
   "image_mse", "image_psnr", "image_ssim", "image_ber", "image_dssim", "image_lpips",
   "image_bitwise_ber", "image_byte_accuracy", "image_exact_match",
   "text_similarity", "text_levenshtein", "text_jaccard", "text_exact_match",
   "text_char_accuracy", "text_bitwise_ber"]

/-- The audio AI/gatekeeper cascade of worker.py lines 166-183: `ai_score`
starts at 0.0; a raise anywhere in the `try` leaves it there; a transition
rate strictly above the threshold forces 1.0 without consulting the model;
otherwise the loaded model's positive-class probability is used when the
feature vector is available. -/
def audioAiScore (w : WorkerOracle) (path : String) : ℚ :=
  match w.gatekeeper path with
  | none => 0
  | some r =>
    if r > AUDIO_LSB_THRESHOLD then 1
    else
      match w.audModel with
      | none => 0
      | some m =>
        match w.audFeatures path with
        | none => 0
        | some fv => (m fv).getD 0

/-- The image AI detection of worker.py lines 207-217: no gatekeeper; 0.0
when the model is absent, the features are `None`, or the prediction raises. -/
def imageAiScore (w : WorkerOracle) (path : String) : ℚ :=
  match w.imgModel with
  | none => 0
  | some m =>
    match w.imgFeatures path with
    | none => 0
    | some fv => (m fv).getD 0

/-- One correlation group as stored in the `groups` dict of
`group_files_smart`: lists of stego and extract candidate paths. -/
structure GroupData where
  stego : List String
  extract : List String
deriving DecidableEq, Repr

/-- The `final_refs` mapping: per modality, group-id string to original path.
Python dicts are modelled as association lists in insertion order. -/
structure Refs where
  image : List (String × String)
  audio : List (String × String)
  text : List (String × String)
deriving DecidableEq, Repr

/-- Caller-supplied metric selection, one name list per modality. -/
structure MetricSelection where
  image : List String
  audio : List String
  text : List String
deriving DecidableEq, Repr

/-- One result row of `MetricWorker.run`. -/
structure ResultRow where
  id : String
  metrics : List (String × ℚ)
  pairs : List (String × (String × String))
deriving DecidableEq, Repr

/-- The standard-metric loop of an audio/image section: skip `ai_detection`,
build `"<modality>_<name>"`, call the registry function when the key exists,
store the value, and swallow any exception (a `none` stores nothing). -/
def registryMetrics (w : WorkerOracle) (modName : String) (names : List String)
    (refPath cmpPath : String) : List (String × ℚ) :=
  names.flatMap fun name =>
    if name = "ai_detection" then []
    else
      let key := modName ++ "_" ++ name
      if key ∈ REGISTRY_KEYS then
        match w.metricFn key refPath cmpPath with
        | some v => [(key, v)]
        | none => []
      else []

/-- The text-metric loop (worker.py 227-234): no `ai_detection` skip — the
key `text_ai_detection` is simply not in the registry. -/
def textSectionMetrics (w : WorkerOracle) (names : List String)
    (refPath cmpPath : String) : List (String × ℚ) :=
  names.flatMap fun name =>
    let key := "text_" ++ name
    if key ∈ REGISTRY_KEYS then
      match w.metricFn key refPath cmpPath with
      | some v => [(key, v)]
      | none => []
    else []

/-- First element of a list, as `data["stego"][0]` guarded by truthiness. -/
def headOpt : List String → Option String
  | [] => none
  | x :: _ => some x

/-- The audio section of the group loop (worker.py 146-183): requires an
audio reference and a non-empty stego list; the pair is recorded before the
metric selection is consulted. -/
def audioSection (w : WorkerOracle) (refs : Refs) (ms : MetricSelection)
    (gid : String) (data : GroupData) :
    List (String × (String × String)) × List (String × ℚ) :=
  match refs.audio.lookup gid, data.stego with
  | some refPath, cmpPath :: _ =>
    ([("audio", (refPath, cmpPath))],
      if ms.audio ≠ [] then
        registryMetrics w "audio" ms.audio refPath cmpPath ++
          (if "ai_detection" ∈ ms.audio then
            [("audio_ai_detection", audioAiScore w cmpPath)] else [])
      else [])
  | _, _ => ([], [])

/-- Candidate choice of the image and text sections: the first stego path
when present, else the first extract path. -/
def targetCandidate (data : GroupData) : Option String :=
  match headOpt data.stego with
  | some t => some t
  | none => headOpt data.extract

/-- The image section of the group loop (worker.py 185-217). -/
def imageSection (w : WorkerOracle) (refs : Refs) (ms : MetricSelection)
    (gid : String) (data : GroupData) :
    List (String × (String × String)) × List (String × ℚ) :=
  match refs.image.lookup gid, targetCandidate data with
  | some refPath, some tgt =>
    ([("image", (refPath, tgt))],
      if ms.image ≠ [] then
        registryMetrics w "image" ms.image refPath tgt ++
          (if "ai_detection" ∈ ms.image then
            [("image_ai_detection", imageAiScore w tgt)] else [])
      else [])
  | _, _ => ([], [])

/-- The text section of the group loop (worker.py 219-234): the non-empty
selection test guards the pair as well. -/
def textSection (w : WorkerOracle) (refs : Refs) (ms : MetricSelection)
    (gid : String) (data : GroupData) :
    List (String × (String × String)) × List (String × ℚ) :=
  if ms.text ≠ [] then
    match refs.text.lookup gid, targetCandidate data with
    | some refPath, some tgt =>
      ([("text", (refPath, tgt))], textSectionMetrics w ms.text refPath tgt)
    | _, _ => ([], [])
  else ([], [])

/-- Construction of one result row by the body of the group loop in
`MetricWorker.run` (worker.py 140-234).  The group id of `groups` is the
string key produced by `group_files_smart`, so the source's
`str_gid = str(gid)` is the identity.  `pairs` and `metrics` dicts are
modelled as association lists in insertion order. -/
def buildRow (w : WorkerOracle) (refs : Refs) (ms : MetricSelection)
    (gid : String) (data : GroupData) : ResultRow :=
  { id := gid,
    metrics := (audioSection w refs ms gid data).2 ++ (imageSection w refs ms gid data).2 ++
      (textSection w refs ms gid data).2,
    pairs := (audioSection w refs ms gid data).1 ++ (imageSection w refs ms gid data).1 ++
      (textSection w refs ms gid data).1 }

/-- Lexicographic comparison of character lists by code point, as Python
compares strings. -/
def charListLe : List Char → List Char → Bool
  | [], _ => true
  | _ :: _, [] => false
  | a :: as, b :: bs =>
    if a.toNat < b.toNat then true
    else if b.toNat < a.toNat then false
    else charListLe as bs

/-- Python string `<=` (code-point lexicographic). -/
def strLeB (s t : String) : Bool := charListLe s.data t.data

/-- Ordered insertion by group key. -/
def insertLe (x : String × GroupData) : List (String × GroupData) → List (String × GroupData)
  | [] => [x]
  | y :: ys => if strLeB x.1 y.1 then x :: y :: ys else y :: insertLe x ys

/-- Python `sorted(groups.items())`: ascending by key under string
comparison.  Keys are distinct (fresh counter values), so the tuple
comparison never reaches the second component. -/
def sortByKey (l : List (String × GroupData)) : List (String × GroupData) :=
  l.foldr insertLe []

/-- Translation of `MetricWorker.run` (worker.py 128-240): with zero groups,
progress 100 and an empty row list; otherwise one row per group in sorted
key order, and after the `i`-th group a progress report of
`int(((i+1)/total)*100)`.  The Python expression truncates the IEEE quotient;
it is modelled as the exact rational floor `100·(i+1)/n`. -/
def runWorker (w : WorkerOracle) (refs : Refs) (groups : List (String × GroupData))
    (ms : MetricSelection) : List ResultRow × List ℕ :=
  let n := groups.length
  if n = 0 then ([], [100])
  else
    ((sortByKey groups).map (fun p => buildRow w refs ms p.1 p.2),
      (List.range n).map (fun i => 100 * (i + 1) / n))

/- ===================== Correlator (utils.py 141-241) ===================== -/

/-- External collaborators of the correlator: `imagehash.phash` of a decoded
image (`none` = read/decode error, swallowed by `calculate_phash`),
`soundfile.read(..., always_2d=True)` (frames-by-channels matrix and sample
rate; `none` = read error), the magnitude spectrum `np.abs(np.fft.rfft(y))`,
the scipy cosine value on two aligned vectors, and the elementwise division
by the L2 norm (length-preserving). -/
structure CorrOracle where
  phash : String → Option (List Bool)
  audioRead : String → Option (List (List ℚ) × ℕ)
  rfftMag : List ℚ → List ℚ
  cosineVal : List ℚ → List ℚ → ℚ
  l2normalize : List ℚ → List ℚ

/-- Mean of a list of rationals (`np.mean`). -/
def meanQ (r : List ℚ) : ℚ := r.sum / (r.length : ℚ)

/-- The channel count `y.shape[1]` of an `always_2d` read. -/
def channelCount (fr : List (List ℚ)) : ℕ :=
  match fr with
  | [] => 1
  | r :: _ => r.length

/-- Chunk lengths of `np.array_split(arr, k)`: the first `len % k` chunks get
`len / k + 1` elements, the rest `len / k`. -/
def arraySplitSizes (len k : ℕ) : List ℕ :=
  (List.range k).map fun i => if i < len % k then len / k + 1 else len / k

def takeChunks : List ℚ → List ℕ → List (List ℚ)
  | _, [] => []
  | l, n :: ns => l.take n :: takeChunks (l.drop n) ns

/-- `np.array_split` into `k` chunks followed by per-chunk means. -/
def splitMeans (l : List ℚ) (k : ℕ) : List ℚ :=
  (takeChunks l (arraySplitSizes l.length k)).map meanQ

/-- Translation of `utils.calculate_audio_fingerprint` (default duration
10s): truncate to `sr·10` frames, downmix by the channel mean when
multichannel else flatten, take the magnitude spectrum, bin into 500 chunk
means only when the spectrum is longer than 500, and L2-normalize when the
norm is positive (`np.linalg.norm(v) > 0` holds exactly when some entry is
nonzero).  Any read error yields `none`. -/
def calculate_audio_fingerprint (co : CorrOracle) (path : String) : Option (List ℚ) :=
  match co.audioRead path with
  | none => none
  | some (y, sr) =>
    let y := if y.length > sr * 10 then y.take (sr * 10) else y
    let mono := if channelCount y > 1 then y.map meanQ else y.flatten
    let spectrum := co.rfftMag mono
    let fp := if spectrum.length > 500 then splitMeans spectrum 500 else spectrum
    let fp := if fp.any (fun q => q != 0) then co.l2normalize fp else fp
    some fp

/-- A stored fingerprint: an image perceptual hash or an audio spectral
vector. -/
inductive FP where
  | img : List Bool → FP
  | aud : List ℚ → FP
deriving DecidableEq

/-- One entry of `orig_entries` (utils.py 174-182). -/
structure OrigEntry where
  path : String
  tokens : List String
  type : Modality
  fingerprint : Option FP
deriving DecidableEq

def mkOrigEntry (co : CorrOracle) (f : String) : OrigEntry :=
  { path := f
    tokens := get_tokens f
    type := modalityOf f
    fingerprint :=
      if modalityOf f = .image then (co.phash f).map FP.img
      else if modalityOf f = .audio then (calculate_audio_fingerprint co f).map FP.aud
      else none }

/-- Hamming distance of two perceptual hashes (`imagehash.__sub__`), which
raises on differing hash shapes. -/
def hammingE (u v : List Bool) : Except String ℕ :=
  if u.length = v.length then .ok ((u.zip v).countP fun p => p.1 != p.2)
  else .error "phash shape mismatch"

/-- `scipy.spatial.distance.cosine`, which raises when the two vectors have
different lengths (the underlying `np.dot` rejects misaligned 1-D shapes);
the numeric value on aligned vectors is the oracle's. -/
def cosineDist (co : CorrOracle) (u v : List ℚ) : Except String ℚ :=
  if u.length = v.length then .ok (co.cosineVal u v) else .error "cosine shapes not aligned"

/-- The image branch of `find_best_original`: minimize Hamming distance,
strict improvement below the initial bound 12, first entry wins ties.
By construction an image-typed entry can only store an image fingerprint. -/
def imageScan (candFp : List Bool) :
    List OrigEntry → ℕ → Option OrigEntry → Except String (Option OrigEntry)
  | [], _, best => .ok best
  | e :: rest, bestDiff, best =>
    match e.type, e.fingerprint with
    | .image, some (.img v) =>
      match hammingE candFp v with
      | .error msg => .error msg
      | .ok diff =>
        if diff < bestDiff then imageScan candFp rest diff (some e)
        else imageScan candFp rest bestDiff best
    | _, _ => imageScan candFp rest bestDiff best

/-- The audio branch of `find_best_original`: maximize `1 - cosine`, strict
improvement above the initial bound 0.90, first entry wins ties.  A cosine
raise propagates. -/
def audioScan (co : CorrOracle) (candFp : List ℚ) :
    List OrigEntry → ℚ → Option OrigEntry → Except String (Option OrigEntry)
  | [], _, best => .ok best
  | e :: rest, bestScore, best =>
    match e.type, e.fingerprint with
    | .audio, some (.aud v) =>
      match cosineDist co candFp v with
      | .error msg => .error msg
      | .ok dist =>
        let sim := 1 - dist
        if sim > bestScore then audioScan co candFp rest sim (some e)
        else audioScan co candFp rest bestScore best
    | _, _ => audioScan co candFp rest bestScore best

/-- The token-overlap fallback: maximize the intersection size over
same-modality originals, accepting only positive overlap, first wins. -/
def tokenScan (candTokens : List String) (candType : Modality) :
    List OrigEntry → ℕ → Option OrigEntry → Option OrigEntry
  | [], _, best => best
  | e :: rest, bestOverlap, best =>
    if e.type = candType then
      let overlap := tokenOverlap e.tokens candTokens
      if 0 < overlap ∧ bestOverlap < overlap then
        tokenScan candTokens candType rest overlap (some e)
      else tokenScan candTokens candType rest bestOverlap best
    else tokenScan candTokens candType rest bestOverlap best

/-- Translation of the nested `find_best_original` (utils.py 188-223). -/
def find_best_original (co : CorrOracle) (origEntries : List OrigEntry)
    (candPath : String) : Except String (Option OrigEntry) :=
  let candType := modalityOf candPath
  let fpScan : Except String (Option OrigEntry) :=
    match candType with
    | .image =>
      match co.phash candPath with
      | some candFp => imageScan candFp origEntries 12 none
      | none => .ok none
    | .audio =>
      match calculate_audio_fingerprint co candPath with
      | some candFp => audioScan co candFp origEntries 0.90 none
      | none => .ok none
    | .text => .ok none
  match fpScan with
  | .error msg => .error msg
  | .ok (some e) => .ok (some e)
  | .ok none => .ok (tokenScan (get_tokens candPath) candType origEntries 0 none)

/-- Mutable state threaded through the two candidate loops of
`group_files_smart`. -/
structure CorrState where
  refs : Refs
  groups : List (String × GroupData)
  counter : ℕ
deriving DecidableEq, Repr

def addRef (refs : Refs) (m : Modality) (gid path : String) : Refs :=
  match m with
  | .image => { refs with image := refs.image ++ [(gid, path)] }
  | .audio => { refs with audio := refs.audio ++ [(gid, path)] }
  | .text => { refs with text := refs.text ++ [(gid, path)] }

/-- One candidate loop of `group_files_smart` (utils.py 225-239): on a match,
allocate `str(global_id_counter)` as the group id, append the candidate under
`stego` or `extract`, record the reference, and advance the counter; on a
miss, drop the candidate silently; a raise from matching propagates. -/
def assignLoop (co : CorrOracle) (entries : List OrigEntry) (isStego : Bool) :
    List String → CorrState → Except String CorrState
  | [], st => .ok st
  | f :: rest, st =>
    match find_best_original co entries f with
    | .error msg => .error msg
    | .ok none => assignLoop co entries isStego rest st
    | .ok (some e) =>
      let gid := toString st.counter
      let gd : GroupData := if isStego then ⟨[f], []⟩ else ⟨[], [f]⟩
      assignLoop co entries isStego rest
        { refs := addRef st.refs e.type gid e.path
          groups := st.groups ++ [(gid, gd)]
          counter := st.counter + 1 }

/-- Translation of `utils.group_files_smart`: build the original entries
once, then correlate all stego candidates, then all extract candidates. -/
def group_files_smart (co : CorrOracle) (originals stegos extracts : List String) :
    Except String (Refs × List (String × GroupData)) :=
  let origEntries := originals.map (mkOrigEntry co)
  match assignLoop co origEntries true stegos ⟨⟨[], [], []⟩, [], 1⟩ with
  | .error msg => .error msg
  | .ok st1 =>
    match assignLoop co origEntries false extracts st1 with
    | .error msg => .error msg
    | .ok st2 => .ok (st2.refs, st2.groups)

/- ===================== Module-level names (worker.py 10-15 vs utils.py) ===================== -/

/-- Every top-level name bound in the `utils` module: its imports (which
become module attributes) and its definitions, in source order. -/
def utilsTopLevelNames : List String :=
  ["re", "Path", "defaultdict", "Image", "imagehash", "np", "sf", "cosine", "math",
   "IMG_EXT", "AUD_EXT", "TXT_EXT", "STOP_WORDS", "fmt_val",
   "calculate_image_stego_prob", "calculate_audio_stego_prob",
   "calculate_phash", "calculate_audio_fingerprint", "get_tokens", "group_files_smart"]

/-- The names worker.py imports from utils (lines 10-15). -/
def workerUtilsImports : List String :=
  ["group_files_smart", "extract_image_features", "extract_audio_features",
   "calculate_gatekeeper_score"]

/-- Oracle with no readable files at all: every fingerprint attempt fails,
so only token-overlap matching can fire. -/
def noFileOracle : CorrOracle :=
  { phash := fun _ => none
    audioRead := fun _ => none
    rfftMag := fun v => v
    cosineVal := fun _ _ => 0
    l2normalize := fun v => v }

/-- Worker oracle with no models loaded and every metric call raising. -/
def noMetricOracle : WorkerOracle :=
  { metricFn := fun _ _ _ => none
    gatekeeper := fun _ => none
    audFeatures := fun _ => none
    audModel := none
    imgFeatures := fun _ => none
    imgModel := none }

def c1Originals : List String := ["alpha.txt"]

def c1Stegos : List String :=
  ["alpha_one.txt", "alpha_two.txt", "alpha_three.txt", "alpha_four.txt",
   "alpha_five.txt", "alpha_six.txt", "alpha_seven.txt", "alpha_eight.txt",
   "alpha_nine.txt", "alpha_ten.txt"]

/-- The references produced for the ten-candidate token-matching scenario. -/
def c1Refs : Refs :=
  ⟨[], [],
   [("1", "alpha.txt"), ("2", "alpha.txt"), ("3", "alpha.txt"), ("4", "alpha.txt"),
    ("5", "alpha.txt"), ("6", "alpha.txt"), ("7", "alpha.txt"), ("8", "alpha.txt"),
    ("9", "alpha.txt"), ("10", "alpha.txt")]⟩

/-- The groups produced for the ten-candidate token-matching scenario. -/
def c1Groups : List (String × GroupData) :=
  [("1", ⟨["alpha_one.txt"], []⟩), ("2", ⟨["alpha_two.txt"], []⟩),
   ("3", ⟨["alpha_three.txt"], []⟩), ("4", ⟨["alpha_four.txt"], []⟩),
   ("5", ⟨["alpha_five.txt"], []⟩), ("6", ⟨["alpha_six.txt"], []⟩),
   ("7", ⟨["alpha_seven.txt"], []⟩), ("8", ⟨["alpha_eight.txt"], []⟩),
   ("9", ⟨["alpha_nine.txt"], []⟩), ("10", ⟨["alpha_ten.txt"], []⟩)]

/- ===================== C2: progress reporting ===================== -/

/-- Three arbitrary groups for the progress scenario. -/
def c2Groups : List (String × GroupData) :=
  [("1", ⟨[], []⟩), ("2", ⟨[], []⟩), ("3", ⟨[], []⟩)]

def c5Oracle : WorkerOracle :=
  { metricFn := fun _ _ _ => some 1
    gatekeeper := fun _ => some 1
    audFeatures := fun _ => none
    audModel := none
    imgFeatures := fun _ => none
    imgModel := none }

def c5Refs : Refs := ⟨[("1", "r.png")], [], []⟩

def c5Groups : List (String × GroupData) := [("1", ⟨["s.png"], []⟩)]

def c5Sel : MetricSelection := ⟨["mse", "psnr"], [], []⟩

/-- A 201-sample signal whose LSB transition count is exactly 91, so that the
transition rate is 91/200 = 0.455 exactly. -/
def c6Boundary : List ℤ := (List.range 92).map (fun i => ((i % 2 : ℕ) : ℤ)) ++ List.replicate 109 1

def c6OracleHigh : WorkerOracle :=
  { metricFn := fun _ _ _ => none
    gatekeeper := fun _ => some (calculate_gatekeeper_score [0, 1])
    audFeatures := fun _ => none
    audModel := none
    imgFeatures := fun _ => none
    imgModel := none }

def c6OracleBoundary : WorkerOracle :=
  { metricFn := fun _ _ _ => none
    gatekeeper := fun _ => some (calculate_gatekeeper_score c6Boundary)
    audFeatures := fun _ => none
    audModel := none
    imgFeatures := fun _ => none
    imgModel := none }

/-- Concrete oracle for the C10 scenario: an 1100-sample original and a
4-sample candidate, a spectrum stand-in of the correct rfft length, identity
normalization. -/
def c10Oracle : CorrOracle :=
  { phash := fun _ => none
    audioRead := fun p =>
      if p = "orig.wav" then some ((List.replicate 1100 (0 : ℚ)).map (fun x => [x]), 110)
      else if p = "cand.wav" then some ((List.replicate 4 (0 : ℚ)).map (fun x => [x]), 1)
      else none
    rfftMag := fun v => List.replicate (v.length / 2 + 1) 0
    cosineVal := fun _ _ => 0
    l2normalize := fun v => v }

theorem floorQ_eq_floor (q : ℚ) : floorQ q = ⌊q⌋ := by
  rw [floorQ, Int.fdiv_eq_ediv _ (Int.natCast_nonneg q.den), Rat.floor_def]

/- ===================== Lemmas: string order and sorting ===================== -/

theorem charListLe_total : ∀ u v : List Char, charListLe u v = true ∨ charListLe v u = true
  | [], _ => Or.inl rfl
  | _ :: _, [] => Or.inr rfl
  | a :: as, b :: bs => by
    by_cases h1 : a.toNat < b.toNat
    · left; simp [charListLe, h1]
    · by_cases h2 : b.toNat < a.toNat
      · right; simp [charListLe, h1, h2]
      · rcases charListLe_total as bs with h | h
        · left; simp [charListLe, h1, h2, h]
        · right; simp [charListLe, h1, h2, h]

theorem charListLe_trans : ∀ u v w : List Char,
    charListLe u v = true → charListLe v w = true → charListLe u w = true
  | [], _, _ => by intro _ _; rfl
  | _ :: _, [], _ => by intro h _; simp [charListLe] at h
  | _ :: _, _ :: _, [] => by intro _ h; simp [charListLe] at h
  | a :: as, b :: bs, c :: cs => by
    intro h1 h2
    by_cases hab : a.toNat < b.toNat <;> by_cases hba : b.toNat < a.toNat <;>
      by_cases hbc : b.toNat < c.toNat <;> by_cases hcb : c.toNat < b.toNat <;>
      simp [charListLe, hab, hba, hbc, hcb] at h1 h2 ⊢ <;>
      first
      | omega
      | exact Or.inl (by omega)
      | exact Or.inr ⟨by omega, charListLe_trans as bs cs h1 h2⟩

theorem strLeB_total (s t : String) : strLeB s t = true ∨ strLeB t s = true :=
  charListLe_total s.data t.data

theorem strLeB_trans {s t u : String} (h1 : strLeB s t = true) (h2 : strLeB t u = true) :
    strLeB s u = true :=
  charListLe_trans s.data t.data u.data h1 h2

theorem insertLe_perm (x : String × GroupData) :
    ∀ l : List (String × GroupData), (insertLe x l).Perm (x :: l)
  | [] => List.Perm.refl _
  | y :: ys => by
    rw [insertLe]
    by_cases h : strLeB x.1 y.1 = true
    · rw [if_pos h]
    · rw [if_neg h]
      exact ((insertLe_perm x ys).cons y).trans (List.Perm.swap x y ys)

theorem mem_insertLe {z x : String × GroupData} {l : List (String × GroupData)}
    (h : z ∈ insertLe x l) : z = x ∨ z ∈ l := by
  have := (insertLe_perm x l).mem_iff.mp h
  simpa using this

theorem pairwise_insertLe (x : String × GroupData) (l : List (String × GroupData))
    (h : l.Pairwise (fun p q => strLeB p.1 q.1 = true)) :
    (insertLe x l).Pairwise (fun p q => strLeB p.1 q.1 = true) := by
  induction l with
  | nil => simp [insertLe]
  | cons y ys ih =>
    rw [insertLe]
    rcases List.pairwise_cons.mp h with ⟨hy, hys⟩
    by_cases hxy : strLeB x.1 y.1 = true
    · rw [if_pos hxy]
      refine List.pairwise_cons.mpr ⟨?_, h⟩
      intro z hz
      rcases List.mem_cons.mp hz with rfl | hz
      · exact hxy
      · exact strLeB_trans hxy (hy z hz)
    · rw [if_neg hxy]
      refine List.pairwise_cons.mpr ⟨?_, ih hys⟩
      intro z hz
      rcases mem_insertLe hz with rfl | hz
      · rcases strLeB_total z.1 y.1 with h' | h'
        · exact absurd h' hxy
        · exact h'
      · exact hy z hz

theorem sortByKey_pairwise (l : List (String × GroupData)) :
    (sortByKey l).Pairwise (fun p q => strLeB p.1 q.1 = true) := by
  induction l with
  | nil => simp [sortByKey]
  | cons x xs ih => exact pairwise_insertLe x (sortByKey xs) ih

theorem sortByKey_perm (l : List (String × GroupData)) : (sortByKey l).Perm l := by
  induction l with
  | nil => simp [sortByKey]
  | cons x xs ih => exact (insertLe_perm x (sortByKey xs)).trans (ih.cons x)

/-- The row list of `runWorker` is always the sorted groups mapped through
`buildRow` (also when there are zero groups, where both sides are empty). -/
theorem runWorker_rows (w : WorkerOracle) (refs : Refs)
    (groups : List (String × GroupData)) (ms : MetricSelection) :
    (runWorker w refs groups ms).1 =
      (sortByKey groups).map (fun p => buildRow w refs ms p.1 p.2) := by
  cases groups with
  | nil => simp [runWorker, sortByKey]
  | cons g gs => simp [runWorker]

/- ===================== Lemmas: group-id assignment ===================== -/

theorem assignLoop_keys (co : CorrOracle) (entries : List OrigEntry) (isStego : Bool) :
    ∀ (files : List String) (st st' : CorrState),
      assignLoop co entries isStego files st = .ok st' →
      st.counter ≤ st'.counter ∧
        st'.groups.map Prod.fst =
          st.groups.map Prod.fst ++
            (List.range' st.counter (st'.counter - st.counter)).map (fun n => toString n)
  | [], st, st' => by
    intro h
    simp only [assignLoop] at h
    cases h
    simp
  | f :: rest, st, st' => by
    intro h
    simp only [assignLoop] at h
    rcases hf : find_best_original co entries f with msg | me <;> simp only [hf] at h
    · exact absurd h (by simp)
    · rcases me with _ | e
      · exact assignLoop_keys co entries isStego rest st st' h
      · rcases assignLoop_keys co entries isStego rest _ st' h with ⟨hc, hk⟩
        dsimp at hc hk
        refine ⟨by omega, ?_⟩
        rw [hk]
        have hcnt : st'.counter - st.counter = (st'.counter - (st.counter + 1)) + 1 := by
          omega
        rw [hcnt, List.range'_succ]
        simp

/- ===================== Claim theorems ===================== -/

/-- C1 (amended): `group_files_smart` keys its groups by the string
`str(counter)` — in insertion order the keys are exactly `"1", ..., "n"` for
`n` matched candidates — and `MetricWorker.run`, which sorts these string
keys, emits its rows in lexicographic (code-point) order of the ids, not in
ascending numeric order. -/
theorem correlator_string_ids_and_worker_lex_order :
    (∀ (co : CorrOracle) (originals stegos extracts : List String)
        (refs : Refs) (groups : List (String × GroupData)),
        group_files_smart co originals stegos extracts = .ok (refs, groups) →
        groups.map Prod.fst = (List.range' 1 groups.length).map (fun n => toString n))
    ∧ ∀ (w : WorkerOracle) (refs : Refs) (groups : List (String × GroupData))
        (ms : MetricSelection),
        ((runWorker w refs groups ms).1.map (fun r => r.id)).Pairwise
          (fun a b => strLeB a b = true) := by
  constructor
  · intro co originals stegos extracts refs groups h
    simp only [group_files_smart] at h
    rcases h1 : assignLoop co (originals.map (mkOrigEntry co)) true stegos ⟨⟨[], [], []⟩, [], 1⟩
      with m1 | st1 <;> simp only [h1] at h
    · exact absurd h (by simp)
    · rcases h2 : assignLoop co (originals.map (mkOrigEntry co)) false extracts st1
        with m2 | st2 <;> simp only [h2] at h
      · exact absurd h (by simp)
      · cases h
        rcases assignLoop_keys co _ true stegos _ st1 h1 with ⟨hc1, hk1⟩
        rcases assignLoop_keys co _ false extracts st1 st2 h2 with ⟨hc2, hk2⟩
        dsimp at hc1 hk1
        rw [hk2, hk1]
        have hlen : st2.groups.length = (st1.counter - 1) + (st2.counter - st1.counter) := by
          have := congrArg List.length hk2
          have h1l := congrArg List.length hk1
          simp at this h1l
          omega
        have happ := List.range'_append 1 (st1.counter - 1) (st2.counter - st1.counter) 1
        have hmid : 1 + 1 * (st1.counter - 1) = st1.counter := by omega
        rw [hmid] at happ
        have hlen' : st1.counter - 1 + (st2.counter - st1.counter) =
            st2.counter - st1.counter + (st1.counter - 1) := Nat.add_comm _ _
        rw [hlen, hlen', ← happ]
        simp [List.map_append]
  · intro w refs groups ms
    rw [runWorker_rows]
    rw [List.map_map]
    have : ((fun r : ResultRow => r.id) ∘ fun p : String × GroupData =>
        buildRow w refs ms p.1 p.2) = fun p : String × GroupData => p.1 := by
      funext p
      rfl
    rw [this]
    exact List.pairwise_map.mpr (sortByKey_pairwise groups)

/-- C1 witness: the ten-candidate scenario instantiates the amended theorem's
first part with its hypothesis discharged by evaluation. -/
theorem correlator_string_ids_and_worker_lex_order_witness :
    group_files_smart noFileOracle c1Originals c1Stegos [] = .ok (c1Refs, c1Groups) ∧
    c1Groups.map Prod.fst = (List.range' 1 c1Groups.length).map (fun n => toString n) :=
  ⟨by decide,
   correlator_string_ids_and_worker_lex_order.1 noFileOracle c1Originals c1Stegos []
     c1Refs c1Groups (by decide)⟩

/-- C1 counterexample: with ten matched candidates the group ids are the
strings `"1" .. "10"`, and the worker emits the row with id `"10"` second —
lexicographic string order, not the claimed ascending numeric order
`1, 2, ..., n`. -/
theorem correlator_int_id_ascending_order_refuted :
    (group_files_smart noFileOracle c1Originals c1Stegos []).map
        (fun rg => (runWorker noMetricOracle rg.1 rg.2 ⟨[], [], []⟩).1.map (fun r => r.id)) =
      .ok ["1", "10", "2", "3", "4", "5", "6", "7", "8", "9"] ∧
    ["1", "10", "2", "3", "4", "5", "6", "7", "8", "9"] ≠
      ["1", "2", "3", "4", "5", "6", "7", "8", "9", "10"] := by
  constructor
  · decide
  · decide

/-- C2 (amended): for every non-empty group set `MetricWorker.run` reports,
after the k-th group, the integer-truncated value `⌊100·k/n⌋` (Python
`int(((i+1)/total)*100)`), not the rounded value; the sequence is
non-decreasing and the value after the last group is exactly 100. -/
theorem worker_progress_floor_monotone_final :
    ∀ (w : WorkerOracle) (refs : Refs) (groups : List (String × GroupData))
      (ms : MetricSelection), groups ≠ [] →
      (runWorker w refs groups ms).2 =
        (List.range groups.length).map (fun i => 100 * (i + 1) / groups.length) ∧
      (runWorker w refs groups ms).2.Pairwise (· ≤ ·) ∧
      (runWorker w refs groups ms).2.getLast? = some 100 := by
  intro w refs groups ms hne
  have hn : groups.length ≠ 0 := fun h => hne (List.length_eq_zero.mp h)
  have heq : (runWorker w refs groups ms).2 =
      (List.range groups.length).map (fun i => 100 * (i + 1) / groups.length) := by
    simp [runWorker, hn]
  refine ⟨heq, ?_, ?_⟩
  · rw [heq]
    refine List.pairwise_map.mpr ?_
    refine (List.pairwise_lt_range _).imp ?_
    intro i j hij
    exact Nat.div_le_div_right (Nat.mul_le_mul_left 100 (by omega))
  · rw [heq, List.getLast?_map]
    have hg : (List.range groups.length).getLast? = some (groups.length - 1) := by
      rw [List.getLast?_eq_getElem?, List.length_range]
      exact List.getElem?_range (by omega)
    rw [hg]
    have hsucc : groups.length - 1 + 1 = groups.length := by omega
    simp only [Option.map_some']
    rw [hsucc]
    rw [Nat.mul_div_cancel 100 (by omega)]

/-- C2 witness: the amended theorem applied to a concrete three-group run. -/
theorem worker_progress_floor_monotone_final_witness :
    (runWorker noMetricOracle ⟨[], [], []⟩ c2Groups ⟨[], [], []⟩).2 =
      (List.range c2Groups.length).map (fun i => 100 * (i + 1) / c2Groups.length) ∧
    (runWorker noMetricOracle ⟨[], [], []⟩ c2Groups ⟨[], [], []⟩).2.Pairwise (· ≤ ·) ∧
    (runWorker noMetricOracle ⟨[], [], []⟩ c2Groups ⟨[], [], []⟩).2.getLast? = some 100 :=
  worker_progress_floor_monotone_final noMetricOracle ⟨[], [], []⟩ c2Groups ⟨[], [], []⟩
    (by decide)

/-- C2 counterexample: with three groups the second reported value is 66,
while the claimed formula `round(100·k/total)` gives `round(200/3) = 67`. -/
theorem worker_progress_round_refuted :
    (runWorker noMetricOracle ⟨[], [], []⟩ c2Groups ⟨[], [], []⟩).2 = [33, 66, 100] ∧
    round ((100 * (2 : ℚ)) / 3) = 67 := by
  constructor
  · decide
  · norm_num [round_eq]

/- ===================== C3: pairs membership ===================== -/

/-- C3 (amended): the audio and image pair entries are recorded whenever a
reference and a candidate exist, regardless of the metric selection (the
source stores `row["pairs"][mod]` before testing `self.metrics[mod]`); only
the text pair additionally requires a non-empty text metric selection.  The
rows of a run are exactly the per-group rows built by `buildRow`. -/
theorem worker_pairs_membership :
    ∀ (w : WorkerOracle) (refs : Refs) (groups : List (String × GroupData))
      (ms : MetricSelection),
      (runWorker w refs groups ms).1 =
        (sortByKey groups).map (fun p => buildRow w refs ms p.1 p.2) ∧
      ∀ gid data,
        (("audio" ∈ (buildRow w refs ms gid data).pairs.map Prod.fst) ↔
          (refs.audio.lookup gid).isSome ∧ data.stego ≠ []) ∧
        (("image" ∈ (buildRow w refs ms gid data).pairs.map Prod.fst) ↔
          (refs.image.lookup gid).isSome ∧ (data.stego ≠ [] ∨ data.extract ≠ [])) ∧
        (("text" ∈ (buildRow w refs ms gid data).pairs.map Prod.fst) ↔
          ms.text ≠ [] ∧ (refs.text.lookup gid).isSome ∧
            (data.stego ≠ [] ∨ data.extract ≠ [])) := by
  intro w refs groups ms
  refine ⟨runWorker_rows w refs groups ms, ?_⟩
  intro gid data
  rcases ha : refs.audio.lookup gid with _ | rpa <;>
    rcases hi : refs.image.lookup gid with _ | rpi <;>
    rcases ht : refs.text.lookup gid with _ | rpt <;>
    rcases hs : data.stego with _ | ⟨s0, srest⟩ <;>
    rcases he : data.extract with _ | ⟨e0, erest⟩ <;>
    rcases hmt : ms.text with _ | ⟨t0, trest⟩ <;>
    simp [buildRow, audioSection, imageSection, textSection, targetCandidate, headOpt,
      ha, hi, ht, hs, he, hmt]

/-- C3 counterexample: every metric list empty, yet the audio pair is
recorded in the row because an audio reference and a stego candidate exist. -/
theorem worker_pairs_empty_selection_refuted :
    runWorker noMetricOracle ⟨[], [("1", "r.wav")], []⟩ [("1", ⟨["s.wav"], []⟩)] ⟨[], [], []⟩ =
      ([⟨"1", [], [("audio", ("r.wav", "s.wav"))]⟩], [100]) := by decide

/- ===================== C4: candidate selection ===================== -/

/-- Helper: every key produced by the registry-metric loop extends its
modality string, so its first character is that of the modality. -/
theorem registryMetrics_key_head (w : WorkerOracle) (modName : String)
    (names : List String) (refPath cmpPath : String) (ch : Char)
    (hch : modName.data.head? = some ch) :
    ∀ k v, (k, v) ∈ registryMetrics w modName names refPath cmpPath →
      k.data.head? = some ch := by
  induction names with
  | nil => intro k v h; simp [registryMetrics] at h
  | cons n ns ih =>
    intro k v h
    simp only [registryMetrics, List.flatMap_cons, List.mem_append] at h
    rcases h with h | h
    · by_cases hai : n = "ai_detection"
      · simp [hai] at h
      · simp only [hai, if_false] at h
        by_cases hk : (modName ++ "_" ++ n) ∈ REGISTRY_KEYS
        · simp only [hk, if_true] at h
          rcases hv : w.metricFn (modName ++ "_" ++ n) refPath cmpPath with _ | val <;>
            simp [hv] at h
          rcases h with ⟨rfl, _⟩
          rw [String.data_append, String.data_append, List.head?_append, List.head?_append]
          rw [hch]
          rfl
        · simp [hk] at h
    · exact ih k v (by simpa [registryMetrics] using h)

/-- Helper: keys from the text-metric loop start with `'t'`. -/
theorem textSectionMetrics_key_head (w : WorkerOracle) (names : List String)
    (refPath cmpPath : String) :
    ∀ k v, (k, v) ∈ textSectionMetrics w names refPath cmpPath →
      k.data.head? = some 't' := by
  induction names with
  | nil => intro k v h; simp [textSectionMetrics] at h
  | cons n ns ih =>
    intro k v h
    simp only [textSectionMetrics, List.flatMap_cons, List.mem_append] at h
    rcases h with h | h
    · by_cases hk : ("text_" ++ n) ∈ REGISTRY_KEYS
      · simp only [hk, if_true] at h
        rcases hv : w.metricFn ("text_" ++ n) refPath cmpPath with _ | val <;>
          simp [hv] at h
        rcases h with ⟨rfl, _⟩
        rw [String.data_append, List.head?_append]
        rfl
      · simp [hk] at h
    · exact ih k v (by simpa [textSectionMetrics] using h)

/-- Helper: an audio-section key starts with `'a'`. -/
theorem audio_key_head (name : String) : ("audio_" ++ name).data.head? = some 'a' := by
  rw [String.data_append]
  rfl

/-- Helper: with no stego candidate the audio section contributes nothing. -/
theorem audioSection_stego_nil (w : WorkerOracle) (refs : Refs) (ms : MetricSelection)
    (gid : String) (data : GroupData) (hs : data.stego = []) :
    audioSection w refs ms gid data = ([], []) := by
  rcases ha : refs.audio.lookup gid with _ | rp <;> simp [audioSection, ha, hs]

/-- Helper: image-section metric keys start with `'i'`. -/
theorem imageSection_key_head (w : WorkerOracle) (refs : Refs) (ms : MetricSelection)
    (gid : String) (data : GroupData) :
    ∀ k v, (k, v) ∈ (imageSection w refs ms gid data).2 → k.data.head? = some 'i' := by
  intro k v h
  rcases hi : refs.image.lookup gid with _ | rp <;>
    rcases htg : targetCandidate data with _ | tgt <;>
    simp only [imageSection, hi, htg] at h
  · exact absurd h (by simp)
  · exact absurd h (by simp)
  · exact absurd h (by simp)
  · split_ifs at h with h1 h2
    · rcases List.mem_append.mp h with hm | hm
      · exact registryMetrics_key_head w "image" ms.image rp tgt 'i' rfl k v hm
      · have hk : k = "image_ai_detection" := by
          simpa using congrArg Prod.fst (List.mem_singleton.mp hm)
        rw [hk]
        rfl
    · rcases List.mem_append.mp h with hm | hm
      · exact registryMetrics_key_head w "image" ms.image rp tgt 'i' rfl k v hm
      · exact absurd hm (by simp)
    · exact absurd h (by simp)

/-- Helper: text-section metric keys start with `'t'`. -/
theorem textSection_key_head (w : WorkerOracle) (refs : Refs) (ms : MetricSelection)
    (gid : String) (data : GroupData) :
    ∀ k v, (k, v) ∈ (textSection w refs ms gid data).2 → k.data.head? = some 't' := by
  intro k v h
  by_cases hmt : ms.text ≠ []
  · rw [textSection, if_pos hmt] at h
    rcases ht : refs.text.lookup gid with _ | rp <;>
      rcases htg : targetCandidate data with _ | tgt <;>
      simp only [ht, htg] at h
    · exact absurd h (by simp)
    · exact absurd h (by simp)
    · exact absurd h (by simp)
    · exact textSectionMetrics_key_head w ms.text rp tgt k v (by simpa using h)
  · rw [textSection, if_neg hmt] at h
    exact absurd h (by simp)

/-- Helper: image-section pair keys are `"image"`. -/
theorem imageSection_pair_key (w : WorkerOracle) (refs : Refs) (ms : MetricSelection)
    (gid : String) (data : GroupData) :
    ∀ x, x ∈ (imageSection w refs ms gid data).1 → x.1 = "image" := by
  intro x hx
  rcases hi : refs.image.lookup gid with _ | rp <;>
    rcases htg : targetCandidate data with _ | tgt <;>
    simp only [imageSection, hi, htg] at hx
  · exact absurd hx (by simp)
  · exact absurd hx (by simp)
  · exact absurd hx (by simp)
  · rw [List.mem_singleton.mp hx]

/-- Helper: text-section pair keys are `"text"`. -/
theorem textSection_pair_key (w : WorkerOracle) (refs : Refs) (ms : MetricSelection)
    (gid : String) (data : GroupData) :
    ∀ x, x ∈ (textSection w refs ms gid data).1 → x.1 = "text" := by
  intro x hx
  by_cases hmt : ms.text ≠ []
  · rw [textSection, if_pos hmt] at hx
    rcases ht : refs.text.lookup gid with _ | rp <;>
      rcases htg : targetCandidate data with _ | tgt <;>
      simp only [ht, htg] at hx
    · exact absurd hx (by simp)
    · exact absurd hx (by simp)
    · exact absurd hx (by simp)
    · have hx' := List.mem_singleton.mp (show x ∈ [("text", (rp, tgt))] by simpa using hx)
      rw [hx']
  · rw [textSection, if_neg hmt] at hx
    exact absurd hx (by simp)

/-- C4 (amended): for image (and text) the worker compares the reference
against the stego candidate when one exists and otherwise against the
extract candidate; for audio there is NO fallback — the audio section runs
only when the stego list is non-empty, so a group with only an extract
candidate gets no audio pair and no audio metrics at all. -/
theorem worker_candidate_selection :
    ∀ (w : WorkerOracle) (refs : Refs) (ms : MetricSelection) (gid : String)
      (data : GroupData),
      (∀ rp, refs.audio.lookup gid = some rp → ∀ c rest, data.stego = c :: rest →
        ("audio", (rp, c)) ∈ (buildRow w refs ms gid data).pairs) ∧
      (data.stego = [] →
        (∀ x, ("audio", x) ∉ (buildRow w refs ms gid data).pairs) ∧
        ∀ name v, ("audio_" ++ name, v) ∉ (buildRow w refs ms gid data).metrics) ∧
      (∀ rp, refs.image.lookup gid = some rp → ∀ c rest, data.stego = c :: rest →
        ("image", (rp, c)) ∈ (buildRow w refs ms gid data).pairs) ∧
      (∀ rp, refs.image.lookup gid = some rp → data.stego = [] →
        ∀ c rest, data.extract = c :: rest →
        ("image", (rp, c)) ∈ (buildRow w refs ms gid data).pairs) ∧
      (∀ rp, refs.text.lookup gid = some rp → ms.text ≠ [] →
        ∀ c rest, data.stego = c :: rest →
        ("text", (rp, c)) ∈ (buildRow w refs ms gid data).pairs) ∧
      (∀ rp, refs.text.lookup gid = some rp → ms.text ≠ [] → data.stego = [] →
        ∀ c rest, data.extract = c :: rest →
        ("text", (rp, c)) ∈ (buildRow w refs ms gid data).pairs) := by
  intro w refs ms gid data
  refine ⟨?_, ?_, ?_, ?_, ?_, ?_⟩
  · intro rp hrp c rest hsc
    have hmem : ("audio", (rp, c)) ∈ (audioSection w refs ms gid data).1 := by
      simp [audioSection, hrp, hsc]
    exact List.mem_append.mpr (Or.inl (List.mem_append.mpr (Or.inl hmem)))
  · intro hs
    have hnil := audioSection_stego_nil w refs ms gid data hs
    constructor
    · intro x hx
      have hx' : ("audio", x) ∈ (imageSection w refs ms gid data).1 ++
          (textSection w refs ms gid data).1 := by
        have : (buildRow w refs ms gid data).pairs =
            (imageSection w refs ms gid data).1 ++ (textSection w refs ms gid data).1 := by
          simp [buildRow, hnil]
        rwa [this] at hx
      rcases List.mem_append.mp hx' with hm | hm
      · have hkey : ("audio" : String) = "image" :=
          imageSection_pair_key w refs ms gid data _ hm
        exact absurd hkey (by decide)
      · have hkey : ("audio" : String) = "text" :=
          textSection_pair_key w refs ms gid data _ hm
        exact absurd hkey (by decide)
    · intro name v hx
      have hx' : ("audio_" ++ name, v) ∈ (imageSection w refs ms gid data).2 ++
          (textSection w refs ms gid data).2 := by
        have : (buildRow w refs ms gid data).metrics =
            (imageSection w refs ms gid data).2 ++ (textSection w refs ms gid data).2 := by
          simp [buildRow, hnil]
        rwa [this] at hx
      rcases List.mem_append.mp hx' with hm | hm
      · have := imageSection_key_head w refs ms gid data _ v hm
        rw [audio_key_head] at this
        exact absurd this (by decide)
      · have := textSection_key_head w refs ms gid data _ v hm
        rw [audio_key_head] at this
        exact absurd this (by decide)
  · intro rp hrp c rest hsc
    have hmem : ("image", (rp, c)) ∈ (imageSection w refs ms gid data).1 := by
      simp [imageSection, targetCandidate, headOpt, hrp, hsc]
    exact List.mem_append.mpr (Or.inl (List.mem_append.mpr (Or.inr hmem)))
  · intro rp hrp hs c rest hec
    have hmem : ("image", (rp, c)) ∈ (imageSection w refs ms gid data).1 := by
      simp [imageSection, targetCandidate, headOpt, hrp, hs, hec]
    exact List.mem_append.mpr (Or.inl (List.mem_append.mpr (Or.inr hmem)))
  · intro rp hrp hmt c rest hsc
    have hmem : ("text", (rp, c)) ∈ (textSection w refs ms gid data).1 := by
      rw [textSection, if_pos hmt]
      simp [targetCandidate, headOpt, hrp, hsc]
    exact List.mem_append.mpr (Or.inr hmem)
  · intro rp hrp hmt hs c rest hec
    have hmem : ("text", (rp, c)) ∈ (textSection w refs ms gid data).1 := by
      rw [textSection, if_pos hmt]
      simp [targetCandidate, headOpt, hrp, hs, hec]
    exact List.mem_append.mpr (Or.inr hmem)

/-- C4 witness: an audio group with a stego candidate, an image group
falling back to the extract candidate, a text group preferring the stego
candidate and one falling back to the extract candidate. -/
theorem worker_candidate_selection_witness :
    (("audio", ("r.wav", "s.wav")) ∈
      (buildRow noMetricOracle ⟨[], [("1", "r.wav")], []⟩ ⟨[], [], []⟩ "1"
        ⟨["s.wav"], []⟩).pairs) ∧
    (("image", ("r.png", "e.png")) ∈
      (buildRow noMetricOracle ⟨[("2", "r.png")], [], []⟩ ⟨[], [], []⟩ "2"
        ⟨[], ["e.png"]⟩).pairs) ∧
    (("text", ("r.txt", "s.txt")) ∈
      (buildRow noMetricOracle ⟨[], [], [("3", "r.txt")]⟩ ⟨[], [], ["similarity"]⟩ "3"
        ⟨["s.txt"], []⟩).pairs) ∧
    (("text", ("r.txt", "e.txt")) ∈
      (buildRow noMetricOracle ⟨[], [], [("4", "r.txt")]⟩ ⟨[], [], ["similarity"]⟩ "4"
        ⟨[], ["e.txt"]⟩).pairs) :=
  ⟨(worker_candidate_selection noMetricOracle ⟨[], [("1", "r.wav")], []⟩ ⟨[], [], []⟩ "1"
      ⟨["s.wav"], []⟩).1 "r.wav" rfl "s.wav" [] rfl,
   (worker_candidate_selection noMetricOracle ⟨[("2", "r.png")], [], []⟩ ⟨[], [], []⟩ "2"
      ⟨[], ["e.png"]⟩).2.2.2.1 "r.png" rfl rfl "e.png" [] rfl,
   (worker_candidate_selection noMetricOracle ⟨[], [], [("3", "r.txt")]⟩
      ⟨[], [], ["similarity"]⟩ "3" ⟨["s.txt"], []⟩).2.2.2.2.1 "r.txt" rfl (by decide)
      "s.txt" [] rfl,
   (worker_candidate_selection noMetricOracle ⟨[], [], [("4", "r.txt")]⟩
      ⟨[], [], ["similarity"]⟩ "4" ⟨[], ["e.txt"]⟩).2.2.2.2.2 "r.txt" rfl (by decide) rfl
      "e.txt" [] rfl⟩

/-- C4 counterexample: an audio group whose stego list is empty but whose
extract list is non-empty, with audio metric `mse` requested and a metric
function that would succeed — yet the row carries no pair and no metric at
all: the requested audio metrics are NOT computed against the extract
candidate. -/
theorem worker_audio_extract_fallback_refuted :
    runWorker
        { metricFn := fun _ _ _ => some 1
          gatekeeper := fun _ => none
          audFeatures := fun _ => none
          audModel := none
          imgFeatures := fun _ => none
          imgModel := none }
        ⟨[], [("1", "ref.wav")], []⟩ [("1", ⟨[], ["e.wav"]⟩)] ⟨[], ["mse"], []⟩ =
      ([⟨"1", [], []⟩], [100]) := by decide

/- ===================== C5: per-metric isolation ===================== -/

/-- Helper: making one registry function always raise removes exactly that
key from the standard-metric loop's output. -/
theorem registryMetrics_disable (w : WorkerOracle) (k : String) (modName : String)
    (names : List String) (refPath cmpPath : String) :
    registryMetrics
        {w with metricFn := fun key => if key = k then fun _ _ => none
          else w.metricFn key} modName names refPath cmpPath =
      (registryMetrics w modName names refPath cmpPath).filter (fun p => p.1 != k) := by
  induction names with
  | nil => simp [registryMetrics]
  | cons n ns ih =>
    simp only [registryMetrics, List.flatMap_cons, List.filter_append] at ih ⊢
    refine congrArg₂ (· ++ ·) ?_ ih
    by_cases hai : n = "ai_detection"
    · simp [hai]
    · simp only [hai, if_false]
      by_cases hkin : (modName ++ "_" ++ n) ∈ REGISTRY_KEYS
      · simp only [hkin, if_true]
        by_cases heq : (modName ++ "_" ++ n) = k
        · simp only [heq, if_true, if_pos rfl]
          rcases w.metricFn k refPath cmpPath with _ | val <;> simp
        · simp only [if_neg heq]
          rcases hv : w.metricFn (modName ++ "_" ++ n) refPath cmpPath with _ | val <;>
            simp [hv, heq]
      · simp [hkin]

/-- Helper: the same for the text-metric loop. -/
theorem textSectionMetrics_disable (w : WorkerOracle) (k : String)
    (names : List String) (refPath cmpPath : String) :
    textSectionMetrics
        {w with metricFn := fun key => if key = k then fun _ _ => none
          else w.metricFn key} names refPath cmpPath =
      (textSectionMetrics w names refPath cmpPath).filter (fun p => p.1 != k) := by
  induction names with
  | nil => simp [textSectionMetrics]
  | cons n ns ih =>
    simp only [textSectionMetrics, List.flatMap_cons, List.filter_append] at ih ⊢
    refine congrArg₂ (· ++ ·) ?_ ih
    by_cases hkin : ("text_" ++ n) ∈ REGISTRY_KEYS
    · simp only [hkin, if_true]
      by_cases heq : ("text_" ++ n) = k
      · simp only [heq, if_true, if_pos rfl]
        rcases w.metricFn k refPath cmpPath with _ | val <;> simp
      · simp only [if_neg heq]
        rcases hv : w.metricFn ("text_" ++ n) refPath cmpPath with _ | val <;>
          simp [hv, heq]
    · simp [hkin]

/-- Helper: the audio section under a disabled registry key: same pair, the
key filtered from the metrics; the AI score does not use the registry. -/
theorem audioSection_disable (w : WorkerOracle) (refs : Refs) (ms : MetricSelection)
    (gid : String) (data : GroupData) (k : String) (hk : k ∈ REGISTRY_KEYS) :
    audioSection
        {w with metricFn := fun key => if key = k then fun _ _ => none
          else w.metricFn key} refs ms gid data =
      ((audioSection w refs ms gid data).1,
        (audioSection w refs ms gid data).2.filter (fun p => p.1 != k)) := by
  have hne : ("audio_ai_detection" : String) ≠ k := by
    intro h
    have : ("audio_ai_detection" : String) ∉ REGISTRY_KEYS := by decide
    exact this (h ▸ hk)
  rcases ha : refs.audio.lookup gid with _ | rp <;>
    rcases hs : data.stego with _ | ⟨c, rest⟩ <;>
    simp only [audioSection, ha, hs]
  · rfl
  · rfl
  · rfl
  · refine congrArg₂ Prod.mk rfl ?_
    by_cases hma : ms.audio ≠ []
    · rw [if_pos hma, if_pos hma, List.filter_append, registryMetrics_disable]
      refine congrArg₂ (· ++ ·) rfl ?_
      by_cases hai : "ai_detection" ∈ ms.audio
      · rw [if_pos hai, if_pos hai]
        have : audioAiScore
            {w with metricFn := fun key => if key = k then fun _ _ => none
              else w.metricFn key} c = audioAiScore w c := rfl
        rw [this]
        simp [hne]
      · rw [if_neg hai, if_neg hai]
        rfl
    · rw [if_neg hma, if_neg hma]
      rfl

/-- Helper: the image section under a disabled registry key. -/
theorem imageSection_disable (w : WorkerOracle) (refs : Refs) (ms : MetricSelection)
    (gid : String) (data : GroupData) (k : String) (hk : k ∈ REGISTRY_KEYS) :
    imageSection
        {w with metricFn := fun key => if key = k then fun _ _ => none
          else w.metricFn key} refs ms gid data =
      ((imageSection w refs ms gid data).1,
        (imageSection w refs ms gid data).2.filter (fun p => p.1 != k)) := by
  have hne : ("image_ai_detection" : String) ≠ k := by
    intro h
    have : ("image_ai_detection" : String) ∉ REGISTRY_KEYS := by decide
    exact this (h ▸ hk)
  rcases hi : refs.image.lookup gid with _ | rp <;>
    rcases htg : targetCandidate data with _ | tgt <;>
    simp only [imageSection, hi, htg]
  · rfl
  · rfl
  · rfl
  · refine congrArg₂ Prod.mk rfl ?_
    by_cases hmi : ms.image ≠ []
    · rw [if_pos hmi, if_pos hmi, List.filter_append, registryMetrics_disable]
      refine congrArg₂ (· ++ ·) rfl ?_
      by_cases hai : "ai_detection" ∈ ms.image
      · rw [if_pos hai, if_pos hai]
        have : imageAiScore
            {w with metricFn := fun key => if key = k then fun _ _ => none
              else w.metricFn key} tgt = imageAiScore w tgt := rfl
        rw [this]
        simp [hne]
      · rw [if_neg hai, if_neg hai]
        rfl
    · rw [if_neg hmi, if_neg hmi]
      rfl

/-- Helper: the text section under a disabled registry key. -/
theorem textSection_disable (w : WorkerOracle) (refs : Refs) (ms : MetricSelection)
    (gid : String) (data : GroupData) (k : String) :
    textSection
        {w with metricFn := fun key => if key = k then fun _ _ => none
          else w.metricFn key} refs ms gid data =
      ((textSection w refs ms gid data).1,
        (textSection w refs ms gid data).2.filter (fun p => p.1 != k)) := by
  by_cases hmt : ms.text ≠ []
  · rw [textSection, textSection, if_pos hmt, if_pos hmt]
    rcases ht : refs.text.lookup gid with _ | rp <;>
      rcases htg : targetCandidate data with _ | tgt <;>
      simp only [ht, htg]
    · rfl
    · rfl
    · rfl
    · exact congrArg₂ Prod.mk rfl (textSectionMetrics_disable w k ms.text rp tgt)
  · rw [textSection, textSection, if_neg hmt, if_neg hmt]
    rfl

/-- Helper: one row under a disabled registry key: identical apart from the
filtered-out metric key. -/
theorem buildRow_disable (w : WorkerOracle) (refs : Refs) (ms : MetricSelection)
    (gid : String) (data : GroupData) (k : String) (hk : k ∈ REGISTRY_KEYS) :
    buildRow
        {w with metricFn := fun key => if key = k then fun _ _ => none
          else w.metricFn key} refs ms gid data =
      { buildRow w refs ms gid data with
        metrics := (buildRow w refs ms gid data).metrics.filter (fun p => p.1 != k) } := by
  simp only [buildRow, audioSection_disable w refs ms gid data k hk,
    imageSection_disable w refs ms gid data k hk, textSection_disable w refs ms gid data k,
    List.filter_append]

/-- C5: each metric invocation is isolated — making one registry metric
function always raise yields exactly the same run (same rows in the same
order, same pair assignments, same progress), except that the failing key is
absent from every row's metrics; every other requested metric of every row
keeps its value, and no placeholder is stored. -/
theorem worker_metric_isolation :
    ∀ (w : WorkerOracle) (refs : Refs) (groups : List (String × GroupData))
      (ms : MetricSelection) (k : String), k ∈ REGISTRY_KEYS →
      runWorker
          {w with metricFn := fun key => if key = k then fun _ _ => none
            else w.metricFn key} refs groups ms =
        ((runWorker w refs groups ms).1.map
            (fun r => { r with metrics := r.metrics.filter (fun p => p.1 != k) }),
          (runWorker w refs groups ms).2) := by
  intro w refs groups ms k hk
  have hfun : (fun p : String × GroupData =>
      buildRow
        {w with metricFn := fun key => if key = k then fun _ _ => none
          else w.metricFn key} refs ms p.1 p.2) =
      fun p : String × GroupData =>
        { buildRow w refs ms p.1 p.2 with
          metrics := (buildRow w refs ms p.1 p.2).metrics.filter (fun p => p.1 != k) } :=
    funext fun p => buildRow_disable w refs ms p.1 p.2 k hk
  rcases groups with _ | ⟨g, gs⟩
  · simp [runWorker]
  · simp only [runWorker, List.length_cons]
    rw [hfun]
    simp [List.map_map]

/-- C5 witness: disabling `image_mse` on a run that computes `image_mse` and
`image_psnr` leaves exactly `image_psnr` and removes `image_mse`. -/
theorem worker_metric_isolation_witness :
    "image_mse" ∈ REGISTRY_KEYS ∧
    runWorker
        {c5Oracle with metricFn := fun key => if key = "image_mse" then fun _ _ => none
          else c5Oracle.metricFn key} c5Refs c5Groups c5Sel =
      ((runWorker c5Oracle c5Refs c5Groups c5Sel).1.map
          (fun r => { r with metrics := r.metrics.filter (fun p => p.1 != "image_mse") }),
        (runWorker c5Oracle c5Refs c5Groups c5Sel).2) :=
  ⟨by decide,
   worker_metric_isolation c5Oracle c5Refs c5Groups c5Sel "image_mse" (by decide)⟩

/- ===================== C6: gatekeeper boundary ===================== -/

/-- C6: in the audio detection cascade, a transition rate strictly greater
than 0.455 forces the score 1.0 without consulting the classifier (any
model and feature oracle give the same result), while a rate exactly equal
to 0.455 falls through to the classifier branch, which yields 0.0 when no
classifier is loaded. -/
theorem audio_gatekeeper_boundary :
    ∀ (w : WorkerOracle) (path : String) (samples : List ℤ),
      w.gatekeeper path = some (calculate_gatekeeper_score samples) →
      ((calculate_gatekeeper_score samples > AUDIO_LSB_THRESHOLD →
        ∀ m f, audioAiScore {w with audModel := m, audFeatures := f} path = 1) ∧
       (calculate_gatekeeper_score samples = AUDIO_LSB_THRESHOLD →
        audioAiScore {w with audModel := none} path = 0)) := by
  intro w path samples hg
  constructor
  · intro hgt m f
    unfold audioAiScore
    simp only [hg]
    rw [if_pos hgt]
  · intro heq
    unfold audioAiScore
    simp only [hg, heq]
    rw [if_neg (lt_irrefl AUDIO_LSB_THRESHOLD)]

set_option maxRecDepth 8000 in
/-- C6 witness: a rate-1 candidate scores exactly 1.0, and a candidate whose
rate is exactly 0.455 falls through and scores 0.0 without a model. -/
theorem audio_gatekeeper_boundary_witness :
    calculate_gatekeeper_score [0, 1] > AUDIO_LSB_THRESHOLD ∧
    audioAiScore {c6OracleHigh with audModel := none, audFeatures := fun _ => none}
      "cand.wav" = 1 ∧
    calculate_gatekeeper_score c6Boundary = AUDIO_LSB_THRESHOLD ∧
    audioAiScore {c6OracleBoundary with audModel := none} "cand.wav" = 0 := by
  have hgt : calculate_gatekeeper_score [0, 1] > AUDIO_LSB_THRESHOLD := by
    have h1 : countLsbTransitions [0, 1] = 1 := by decide
    have h2 : ([0, 1] : List ℤ).length = 2 := by decide
    rw [calculate_gatekeeper_score, h1, h2]
    norm_num [AUDIO_LSB_THRESHOLD]
  have heq : calculate_gatekeeper_score c6Boundary = AUDIO_LSB_THRESHOLD := by
    have h1 : countLsbTransitions c6Boundary = 91 := by decide
    have h2 : c6Boundary.length = 201 := by decide
    rw [calculate_gatekeeper_score, h1, h2]
    norm_num [AUDIO_LSB_THRESHOLD]
  exact ⟨hgt,
    (audio_gatekeeper_boundary c6OracleHigh "cand.wav" [0, 1] rfl).1 hgt none (fun _ => none),
    heq,
    (audio_gatekeeper_boundary c6OracleBoundary "cand.wav" c6Boundary rfl).2 heq⟩

/- ===================== C7: image statistical fallback ===================== -/

/-- Helper: every member of a list is at most its `foldr max 0`. -/
theorem le_foldr_max : ∀ (l : List ℕ) (v : ℕ), v ∈ l → v ≤ l.foldr Nat.max 0
  | [], v => by intro h; exact absurd h (by simp)
  | x :: xs, v => by
    intro hv
    rcases List.mem_cons.mp hv with rfl | hv
    · exact Nat.le_max_left _ _
    · exact Nat.le_trans (le_foldr_max xs v hv) (Nat.le_max_right _ _)

/-- Helper: the source's bincount-over-range entropy equals the spec's
entropy over the distinct values present. -/
theorem histEntropy_eq_spec (nz : List ℕ) : histEntropy nz = specHistEntropy nz := by
  unfold histEntropy specHistEntropy
  congr 1
  have hsub : nz.toFinset ⊆ Finset.range (nz.foldr Nat.max 0 + 1) := by
    intro v hv
    rw [Finset.mem_range]
    exact Nat.lt_succ_of_le (le_foldr_max nz v (List.mem_toFinset.mp hv))
  have hz : ∀ v ∈ Finset.range (nz.foldr Nat.max 0 + 1), v ∉ nz.toFinset →
      (if 0 < nz.count v then
        ((nz.count v : ℝ) / nz.length) * Real.logb 2 ((nz.count v : ℝ) / nz.length)
      else 0) = 0 := by
    intro v _ hv
    rw [if_neg]
    intro hpos
    exact hv (List.mem_toFinset.mpr (List.count_pos_iff.mp hpos))
  rw [← Finset.sum_subset hsub hz]
  refine Finset.sum_congr rfl ?_
  intro v hv
  rw [if_pos (List.count_pos_iff.mpr (List.mem_toFinset.mp hv))]

/-- C7: `calculate_image_stego_prob` computes exactly the spec's function:
1.0 when width or height differ, 0.0 when the absolute per-channel residual
sums to zero, and otherwise the 4-decimal rounding of the logistic squash
`1/(1+e^{-(H-0.5)·2})` of the base-2 Shannon entropy of the histogram of the
nonzero residual values. -/
theorem image_stego_prob_matches_spec :
    ∀ a b : Img, calculate_image_stego_prob a b = image_stego_prob_spec a b := by
  intro a b
  unfold calculate_image_stego_prob image_stego_prob_spec
  by_cases hdim : (a.width, a.height) ≠ (b.width, b.height)
  · rw [if_pos hdim, if_pos ?_]
    rw [Ne, Prod.mk.injEq] at hdim
    exact not_and_or.mp hdim
  · have hdim' : ¬(a.width ≠ b.width ∨ a.height ≠ b.height) := by
      rw [Ne, Prod.mk.injEq] at hdim
      push_neg at hdim ⊢
      exact hdim
    rw [if_neg hdim, if_neg hdim']
    by_cases hsum : (imageResidual a b).sum = 0
    · rw [if_pos hsum, if_pos hsum]
    · rw [if_neg hsum, if_neg hsum]
      have hfeq : (imageResidual a b).filter (fun d => decide (0 < d)) =
          (imageResidual a b).filter (fun d => decide (d ≠ 0)) := by
        refine List.filter_congr ?_
        intro d _
        simp [Nat.pos_iff_ne_zero]
      have hne : ((imageResidual a b).filter (fun d => decide (0 < d))).length ≠ 0 := by
        intro hlen
        have hnil := List.length_eq_zero.mp hlen
        rw [List.filter_eq_nil_iff] at hnil
        refine hsum (List.sum_eq_zero ?_)
        intro d hd
        have := hnil d hd
        simp at this
        omega
      rw [if_neg hne, hfeq, histEntropy_eq_spec]

/- ===================== C8: audio statistical fallback ===================== -/

theorem wrap16_bounds (z : ℤ) : -32768 ≤ wrap16 z ∧ wrap16 z ≤ 32767 := by
  unfold wrap16
  omega

/-- Helper: every sample surviving the read-truncate-flatten front half is a
wrapped int16 value. -/
theorem mem_sfFlatten_sfWrap (s : SfData) (m : ℕ) :
    ∀ x ∈ sfFlatten (sfTake m (sfWrap s)), ∃ z, x = wrap16 z := by
  cases s with
  | one xs =>
    intro x hx
    simp only [sfWrap, sfTake, sfFlatten] at hx
    rcases List.mem_map.mp (List.mem_of_mem_take hx) with ⟨z, _, rfl⟩
    exact ⟨z, rfl⟩
  | two fr =>
    intro x hx
    simp only [sfWrap, sfTake, sfFlatten] at hx
    rcases List.mem_flatten.mp hx with ⟨row, hrow, hxrow⟩
    rcases List.mem_map.mp (List.mem_of_mem_take hrow) with ⟨r, _, rfl⟩
    rcases List.mem_map.mp hxrow with ⟨z, _, rfl⟩
    exact ⟨z, rfl⟩

/-- Helper: numpy `int16` absolute difference: nonnegative, and zero exactly
on equal samples, provided the true difference is not exactly ±32768 (the one
case where `np.abs` overflows). -/
theorem abs16_wrap16_facts (d : ℤ) (hlb : -65535 ≤ d) (hub : d ≤ 65535)
    (h32 : d.natAbs ≠ 32768) :
    0 ≤ abs16 (wrap16 d) ∧ (abs16 (wrap16 d) = 0 ↔ d = 0) := by
  have h32' : d ≠ 32768 ∧ d ≠ -32768 := by
    constructor <;> rintro rfl <;> simp at h32
  rcases le_or_lt 0 (wrap16 d) with hz0 | hz0
  · have hcast : ((wrap16 d).natAbs : ℤ) = wrap16 d := Int.natAbs_of_nonneg hz0
    unfold abs16
    rw [hcast]
    unfold wrap16 at *
    constructor
    · omega
    · omega
  · have hcast : ((wrap16 d).natAbs : ℤ) = -(wrap16 d) :=
      Int.ofNat_natAbs_of_nonpos (le_of_lt hz0)
    unfold abs16
    rw [hcast]
    unfold wrap16 at *
    constructor
    · omega
    · omega

/-- Helper: sum of a list of nonnegative integers vanishes iff every entry
does. -/
theorem sum_int_zero_iff : ∀ (l : List ℤ), (∀ x ∈ l, 0 ≤ x) →
    (l.sum = 0 ↔ ∀ x ∈ l, x = 0)
  | [] => by simp
  | x :: xs => by
    intro h
    have hx := h x (by simp)
    have hxs : ∀ y ∈ xs, 0 ≤ y := fun y hy => h y (by simp [hy])
    have hs := List.sum_nonneg hxs
    have ih := sum_int_zero_iff xs hxs
    simp only [List.sum_cons]
    constructor
    · intro h0
      have hx0 : x = 0 := by omega
      have hxs0 : xs.sum = 0 := by omega
      intro y hy
      rcases List.mem_cons.mp hy with rfl | hy
      · exact hx0
      · exact ih.mp hxs0 y hy
    · intro hall
      rw [hall x (by simp), ih.mpr (fun y hy => hall y (by simp [hy]))]
      simp

/-- Helper: positivity of `foldl maxI` in terms of the accumulator and the
entries. -/
theorem foldl_maxI_pos_iff : ∀ (l : List ℤ) (acc : ℤ),
    (0 < l.foldl maxI acc ↔ 0 < acc ∨ ∃ x ∈ l, 0 < x)
  | [], acc => by simp
  | x :: xs, acc => by
    rw [List.foldl_cons, foldl_maxI_pos_iff xs (maxI acc x)]
    have hm : 0 < maxI acc x ↔ 0 < acc ∨ 0 < x := by
      unfold maxI
      split <;> omega
    constructor
    · rintro (h | h)
      · rcases hm.mp h with h' | h'
        · exact Or.inl h'
        · exact Or.inr ⟨x, by simp, h'⟩
      · rcases h with ⟨y, hy, hy0⟩
        exact Or.inr ⟨y, by simp [hy], hy0⟩
    · rintro (h | ⟨y, hy, hy0⟩)
      · exact Or.inl (hm.mpr (Or.inl h))
      · rcases List.mem_cons.mp hy with rfl | hy
        · exact Or.inl (hm.mpr (Or.inr hy0))
        · exact Or.inr ⟨y, hy, hy0⟩

/-- C8 (amended): on inputs whose flattened, truncated sample sequences have
equal lengths and where no sample pair differs by exactly ±32768 in true
value (the int16 `np.abs` overflow edge), `calculate_audio_stego_prob`
computes exactly the amended spec: 0.0 when the absolute sample difference
sums to zero, else `min(change_rate·20, 1)` floored to 0.1 when the maximum
absolute difference is nonzero, rounded to 4 decimals — with multichannel
input flattened by interleaving all channels, not by channel selection. -/
theorem audio_stego_prob_matches_spec :
    ∀ a b : SfData,
      (flatTrunc a b).1.length = (flatTrunc a b).2.length →
      (∀ p ∈ (flatTrunc a b).1.zip (flatTrunc a b).2, (p.1 - p.2).natAbs ≠ 32768) →
      calculate_audio_stego_prob a b = audio_stego_prob_spec a b := by
  intro a b hlen h32
  have hub : ∀ x ∈ (flatTrunc a b).1, -32768 ≤ x ∧ x ≤ 32767 := by
    intro x hx
    simp only [flatTrunc] at hx
    rcases mem_sfFlatten_sfWrap a _ x hx with ⟨z, rfl⟩
    exact wrap16_bounds z
  have hvb : ∀ x ∈ (flatTrunc a b).2, -32768 ≤ x ∧ x ≤ 32767 := by
    intro x hx
    simp only [flatTrunc] at hx
    rcases mem_sfFlatten_sfWrap b _ x hx with ⟨z, rfl⟩
    exact wrap16_bounds z
  have hpair : ∀ p ∈ (flatTrunc a b).1.zip (flatTrunc a b).2,
      0 ≤ abs16 (wrap16 (p.1 - p.2)) ∧ (abs16 (wrap16 (p.1 - p.2)) = 0 ↔ p.1 - p.2 = 0) := by
    intro p hp
    have h1 := hub p.1 (List.of_mem_zip hp).1
    have h2 := hvb p.2 (List.of_mem_zip hp).2
    exact abs16_wrap16_facts _ (by omega) (by omega) (h32 p hp)
  have hbcC : broadcastWith (fun x y => abs16 (wrap16 (x - y)))
      (flatTrunc a b).1 (flatTrunc a b).2 =
      some (((flatTrunc a b).1.zip (flatTrunc a b).2).map
        fun p => abs16 (wrap16 (p.1 - p.2))) := by
    unfold broadcastWith
    rw [if_pos hlen]
  have hbcS : broadcastWith (fun x y => |x - y|)
      (flatTrunc a b).1 (flatTrunc a b).2 =
      some (((flatTrunc a b).1.zip (flatTrunc a b).2).map fun p => |p.1 - p.2|) := by
    unfold broadcastWith
    rw [if_pos hlen]
  simp only [calculate_audio_stego_prob, audio_stego_prob_spec, hbcC, hbcS]
  set D := (flatTrunc a b).1.zip (flatTrunc a b).2 with hD
  set diffC := D.map (fun p => abs16 (wrap16 (p.1 - p.2))) with hdiffC
  set diffS := D.map (fun p => |p.1 - p.2|) with hdiffS
  have hCnn : ∀ x ∈ diffC, 0 ≤ x := by
    rw [hdiffC]
    exact List.forall_mem_map.mpr (fun p hp => (hpair p hp).1)
  have hSnn : ∀ x ∈ diffS, 0 ≤ x := by
    rw [hdiffS]
    exact List.forall_mem_map.mpr (fun p _ => abs_nonneg _)
  have hCzero : diffC.sum = 0 ↔ ∀ p ∈ D, p.1 - p.2 = 0 := by
    rw [sum_int_zero_iff diffC hCnn, hdiffC, List.forall_mem_map]
    constructor
    · intro h p hp
      exact ((hpair p hp).2).mp (h p hp)
    · intro h p hp
      exact ((hpair p hp).2).mpr (h p hp)
  have hSzero : diffS.sum = 0 ↔ ∀ p ∈ D, p.1 - p.2 = 0 := by
    rw [sum_int_zero_iff diffS hSnn, hdiffS, List.forall_mem_map]
    constructor
    · intro h p hp
      exact abs_eq_zero.mp (h p hp)
    · intro h p hp
      exact abs_eq_zero.mpr (h p hp)
  have hcnt : diffC.countP (fun d0 => d0 != 0) = diffS.countP (fun d0 => d0 != 0) := by
    rw [hdiffC, hdiffS, List.countP_map, List.countP_map]
    refine List.countP_congr ?_
    intro p hp
    simp only [Function.comp_apply, bne_iff_ne, ne_eq]
    exact not_congr ((hpair p hp).2.trans abs_eq_zero.symm)
  have hlencs : diffC.length = diffS.length := by
    rw [hdiffC, hdiffS, List.length_map, List.length_map]
  by_cases hz : ∀ p ∈ D, p.1 - p.2 = 0
  · rw [if_pos (hCzero.mpr hz), if_pos (hSzero.mpr hz)]
  · rw [if_neg (fun h => hz (hCzero.mp h)), if_neg (fun h => hz (hSzero.mp h))]
    push_neg at hz
    obtain ⟨p0, hp0, hd0⟩ := hz
    have hmaxC : 0 < diffC.foldl maxI 0 := by
      rw [foldl_maxI_pos_iff]
      right
      refine ⟨abs16 (wrap16 (p0.1 - p0.2)), ?_, ?_⟩
      · rw [hdiffC]
        exact List.mem_map_of_mem _ hp0
      · have hfp := hpair p0 hp0
        rcases lt_or_eq_of_le hfp.1 with h | h
        · exact h
        · exact absurd (hfp.2.mp h.symm) hd0
    have hmaxS : 0 < diffS.foldl maxI 0 := by
      rw [foldl_maxI_pos_iff]
      right
      refine ⟨|p0.1 - p0.2|, ?_, abs_pos.mpr hd0⟩
      rw [hdiffS]
      exact List.mem_map_of_mem _ hp0
    unfold audioScoreTail
    dsimp only
    rw [hcnt, hlencs]
    by_cases hpq : minQ (((diffS.countP (fun d0 => d0 != 0) : ℕ) : ℚ) /
        ((diffS.length : ℕ) : ℚ) * 20) 1 < 1/10
    · have hcondC : 0 < diffC.foldl maxI 0 ∧
          minQ (((diffS.countP (fun d0 => d0 != 0) : ℕ) : ℚ) /
            ((diffS.length : ℕ) : ℚ) * 20) 1 < 1/10 := ⟨hmaxC, hpq⟩
      have hcondS : diffS.foldl maxI 0 ≠ 0 ∧
          minQ (((diffS.countP (fun d0 => d0 != 0) : ℕ) : ℚ) /
            ((diffS.length : ℕ) : ℚ) * 20) 1 < 1/10 := ⟨ne_of_gt hmaxS, hpq⟩
      rw [if_pos hcondC, if_pos hcondS]
      unfold maxQ
      rw [if_pos (le_of_lt hpq)]
    · have hcondC : ¬(0 < diffC.foldl maxI 0 ∧
          minQ (((diffS.countP (fun d0 => d0 != 0) : ℕ) : ℚ) /
            ((diffS.length : ℕ) : ℚ) * 20) 1 < 1/10) := fun hc => hpq hc.2
      have hcondS : ¬(diffS.foldl maxI 0 ≠ 0 ∧
          minQ (((diffS.countP (fun d0 => d0 != 0) : ℕ) : ℚ) /
            ((diffS.length : ℕ) : ℚ) * 20) 1 < 1/10) := fun hc => hpq hc.2
      rw [if_neg hcondC, if_neg hcondS]

/-- C8 witness: the amended refinement applied to a concrete mono pair. -/
theorem audio_stego_prob_matches_spec_witness :
    (flatTrunc (.one [0]) (.one [1])).1.length = (flatTrunc (.one [0]) (.one [1])).2.length ∧
    (∀ p ∈ (flatTrunc (.one [0]) (.one [1])).1.zip (flatTrunc (.one [0]) (.one [1])).2,
      (p.1 - p.2).natAbs ≠ 32768) ∧
    calculate_audio_stego_prob (.one [0]) (.one [1]) =
      audio_stego_prob_spec (.one [0]) (.one [1]) :=
  ⟨by decide, by decide,
   audio_stego_prob_matches_spec (.one [0]) (.one [1]) (by decide) (by decide)⟩

/-- C8 counterexample: a one-frame stereo pair differing only in the second
channel.  The source flattens both channels and scores 1.0; under the
claim's "flatten to mono by simple channel selection" reading the selected
channel is unchanged and the score would be 0.0. -/
theorem audio_channel_selection_refuted :
    calculate_audio_stego_prob (.two [[0, 0]]) (.two [[0, 1]]) = 1 ∧
    audio_stego_prob_claimed (.two [[0, 0]]) (.two [[0, 1]]) = 0 := by
  constructor
  · norm_num [calculate_audio_stego_prob, flatTrunc, sfWrap, sfLen, sfTake, sfFlatten,
      wrap16, abs16, broadcastWith, audioScoreTail, minQ, maxQ, maxI, round4, floorQ_eq_floor]
  · norm_num [audio_stego_prob_claimed, channelSelect, sfWrap, sfLen, sfTake, sfFlatten,
      wrap16, broadcastWith]

/- ===================== C9: missing utils names ===================== -/

/-- C9: worker.py imports `extract_image_features`, `extract_audio_features`
and `calculate_gatekeeper_score` from utils, yet none of these names is
bound at the top level of utils.py — the worker's import list is not covered
by the utils module namespace, so `from utils import (...)` raises
`ImportError` at module load and no `MetricWorker` operation is reachable. -/
theorem worker_import_names_missing :
    "extract_image_features" ∉ utilsTopLevelNames ∧
    "extract_audio_features" ∉ utilsTopLevelNames ∧
    "calculate_gatekeeper_score" ∉ utilsTopLevelNames ∧
    ¬ (∀ n ∈ workerUtilsImports, n ∈ utilsTopLevelNames) := by decide

/- ===================== C10: short-audio fingerprint raise ===================== -/

theorem takeChunks_length : ∀ (ns : List ℕ) (l : List ℚ),
    (takeChunks l ns).length = ns.length
  | [], _ => rfl
  | n :: ns, l => by
    rw [takeChunks, List.length_cons, List.length_cons, takeChunks_length ns]

theorem splitMeans_length (l : List ℚ) (k : ℕ) : (splitMeans l k).length = k := by
  unfold splitMeans arraySplitSizes
  rw [List.length_map, takeChunks_length, List.length_map, List.length_range]

theorem flatten_map_singleton : ∀ (xs : List ℚ), (xs.map (fun x => [x])).flatten = xs
  | [] => rfl
  | x :: xs => by
    rw [List.map_cons, List.flatten_cons, flatten_map_singleton xs]
    rfl

/-- Helper: for a mono read of `n` samples with no truncation, the
fingerprint exists and has length `min (n/2 + 1) 500` — in particular the
spectrum of a short file is returned un-binned. -/
theorem fingerprint_length (co : CorrOracle)
    (hr : ∀ v, (co.rfftMag v).length = v.length / 2 + 1)
    (hn : ∀ v, (co.l2normalize v).length = v.length)
    (path : String) (xs : List ℚ) (sr : ℕ)
    (hread : co.audioRead path = some (xs.map (fun x => [x]), sr))
    (hlen : xs.length ≤ sr * 10) :
    ∃ fp, calculate_audio_fingerprint co path = some fp ∧
      fp.length = min (xs.length / 2 + 1) 500 := by
  unfold calculate_audio_fingerprint
  rw [hread]
  dsimp only
  have hnt : ¬ ((xs.map (fun x => [x])).length > sr * 10) := by
    rw [List.length_map]
    omega
  rw [if_neg hnt]
  have hch : ¬ (channelCount (xs.map (fun x => [x])) > 1) := by
    cases xs with
    | nil => simp [channelCount]
    | cons x rest => simp [channelCount]
  rw [if_neg hch, flatten_map_singleton]
  have hspec := hr xs
  by_cases hgt : (co.rfftMag xs).length > 500
  · rw [if_pos hgt]
    by_cases hany : (splitMeans (co.rfftMag xs) 500).any (fun q => q != 0)
    · rw [if_pos hany]
      refine ⟨_, rfl, ?_⟩
      rw [hn, splitMeans_length]
      omega
    · rw [if_neg hany]
      refine ⟨_, rfl, ?_⟩
      rw [splitMeans_length]
      omega
  · rw [if_neg hgt]
    by_cases hany : (co.rfftMag xs).any (fun q => q != 0)
    · rw [if_pos hany]
      refine ⟨_, rfl, ?_⟩
      rw [hn, hspec]
      omega
    · rw [if_neg hany]
      refine ⟨_, rfl, ?_⟩
      rw [hspec]
      omega

/-- C10: correlation is not exception-free.  With a 4-sample audio candidate
(whose magnitude spectrum, of length 3, is returned un-binned) and an
1100-sample original (binned to a 500-entry fingerprint), scipy's cosine is
applied to vectors of different lengths and raises; neither
`find_best_original` nor `group_files_smart` catches it, so the whole
correlation call raises instead of dropping the candidate. -/
theorem correlator_short_audio_raises :
    ∀ (co : CorrOracle) (yo yc : List ℚ) (sro src : ℕ),
      (∀ v, (co.rfftMag v).length = v.length / 2 + 1) →
      (∀ v, (co.l2normalize v).length = v.length) →
      co.audioRead "orig.wav" = some (yo.map (fun x => [x]), sro) →
      co.audioRead "cand.wav" = some (yc.map (fun x => [x]), src) →
      yo.length = 1100 → yc.length = 4 → 110 ≤ sro → 1 ≤ src →
      group_files_smart co ["orig.wav"] ["cand.wav"] [] =
        .error "cosine shapes not aligned" := by
  intro co yo yc sro src hr hn hro hrc hyo hyc hsro hsrc
  obtain ⟨fpo, hfpo, hfpolen⟩ :=
    fingerprint_length co hr hn "orig.wav" yo sro hro (by omega)
  obtain ⟨fpc, hfpc, hfpclen⟩ :=
    fingerprint_length co hr hn "cand.wav" yc src hrc (by omega)
  rw [hyo] at hfpolen
  rw [hyc] at hfpclen
  have hfpo500 : fpo.length = 500 := by omega
  have hfpc3 : fpc.length = 3 := by omega
  have hmodo : modalityOf "orig.wav" = Modality.audio := by decide
  have hmodc : modalityOf "cand.wav" = Modality.audio := by decide
  have hentry : mkOrigEntry co "orig.wav" =
      { path := "orig.wav", tokens := get_tokens "orig.wav", type := Modality.audio,
        fingerprint := some (FP.aud fpo) } := by
    unfold mkOrigEntry
    rw [hmodo]
    simp [hfpo]
  have hcos : cosineDist co fpc fpo = .error "cosine shapes not aligned" := by
    unfold cosineDist
    rw [if_neg (by omega)]
  have hscan : audioScan co fpc [mkOrigEntry co "orig.wav"] 0.90 none =
      .error "cosine shapes not aligned" := by
    rw [hentry]
    unfold audioScan
    simp only [hcos]
  have hfind : find_best_original co (["orig.wav"].map (mkOrigEntry co)) "cand.wav" =
      .error "cosine shapes not aligned" := by
    unfold find_best_original
    dsimp only
    rw [hmodc]
    dsimp only
    rw [hfpc]
    dsimp only
    rw [List.map_cons, List.map_nil, hscan]
  have hloop : assignLoop co (["orig.wav"].map (mkOrigEntry co)) true ["cand.wav"]
      ⟨⟨[], [], []⟩, [], 1⟩ = .error "cosine shapes not aligned" := by
    simp only [assignLoop, hfind]
  unfold group_files_smart
  dsimp only
  rw [hloop]

set_option maxRecDepth 16000 in
/-- C10 witness: the theorem applied to the concrete oracle — this
correlation call raises instead of dropping the candidate. -/
theorem correlator_short_audio_raises_witness :
    (∀ v : List ℚ, (c10Oracle.rfftMag v).length = v.length / 2 + 1) ∧
    (∀ v : List ℚ, (c10Oracle.l2normalize v).length = v.length) ∧
    c10Oracle.audioRead "orig.wav" =
      some ((List.replicate 1100 (0 : ℚ)).map (fun x => [x]), 110) ∧
    c10Oracle.audioRead "cand.wav" =
      some ((List.replicate 4 (0 : ℚ)).map (fun x => [x]), 1) ∧
    group_files_smart c10Oracle ["orig.wav"] ["cand.wav"] [] =
      .error "cosine shapes not aligned" :=
  ⟨fun v => by simp [c10Oracle],
   fun v => rfl,
   by decide,
   by decide,
   correlator_short_audio_raises c10Oracle (List.replicate 1100 0) (List.replicate 4 0)
     110 1 (fun v => by simp [c10Oracle]) (fun v => rfl) (by decide) (by decide)
     (by simp) (by simp) (by omega) (by omega)⟩

